import Mathlib

/-! Team-membership synchronisation (abcxyz/readability).

A shallow embedding of `internal/readability/syncer.go` and of the sync loop of
`internal/cmd/sync/main.go`.

* Go maps are association lists with distinct keys (`mapGet`, `mapSet`); a
  `range` over a map visits the entries in list order.  Go leaves that order
  unspecified, so theorems quantify over every list that represents the map.
* The GitHub client is an explicit state `GitHub`: the rosters, the org admin
  listings, a log of every request made, and a fault schedule saying which
  requests fail.  A request that fails changes nothing but the log.
* A listing request carries `PerPage` and returns one page: the first
  `perPage` entries.  The source never asks for a second page.
* Standard output is the list of progress lines (`Notice`) printed.
* A Go `error` is the list of the messages it joins; `nil` is the empty list.
* Calls are sequential, except for one schedule of two concurrent `OrgAdmins`
  calls (`Syncer.racingOrgAdmins`), built from the two locked sections of the
  method; the read-write lock only decides which sections are atomic.
-/

namespace Readability

/-! ## Go maps -/

/-- Map read `m[k]` with the comma-ok flag: `none` when the key is missing. -/
def mapGet {α : Type} : List (String × α) → String → Option α
  | [], _ => none
  | (k1, v) :: m, k => if k1 = k then some v else mapGet m k

/-- Map write `m[k] = v`: overwrite an existing key, else add the entry. -/
def mapSet {α : Type} : List (String × α) → String → α → List (String × α)
  | [], k, v => [(k, v)]
  | (k1, v1) :: m, k, v => if k1 = k then (k1, v) :: m else (k1, v1) :: mapSet m k v

/-- Deletion of a key from a map. -/
def mapDelete {α : Type} : List (String × α) → String → List (String × α)
  | [], _ => []
  | (k1, v1) :: m, k => if k1 = k then mapDelete m k else (k1, v1) :: mapDelete m k

/-- Write into a `map[string]struct{}`: `m[k] = struct{}{}`. -/
def setInsert (m : List String) (k : String) : List String :=
  if k ∈ m then m else m ++ [k]

/-! ## The GitHub client -/

/-- The requests the syncer sends through the GitHub client. -/
inductive Call where
  | listMembers (org role : String) (perPage : Nat)
  | listTeamMembersBySlug (org team role : String) (perPage : Nat)
  | addTeamMembershipBySlug (org team user role : String)
  | removeTeamMembershipBySlug (org team user : String)
  deriving DecidableEq, Repr

/-- State of the directory service together with the request log.
`admins org` lists the organisation's admins in listing order, `teams org team`
is the team roster (login, role) in listing order, `faults n` tells whether the
request number `n` (counted from 0) fails, `calls` is the log, oldest first. -/
structure GitHub where
  admins : String → List String
  teams : String → String → List (String × String)
  faults : Nat → Bool
  calls : List Call

/-- The message of a failed request. -/
def requestFailed : String := "request failed"

/-- The request `Organizations.ListMembers` with a role and `PerPage`: one page of
the organisation's members with the given role.  Only the role "admin" is
used by the syncer; other roles list nothing in this model. -/
def GitHub.ListMembers (g : GitHub) (org role : String) (perPage : Nat) :
    Except String (List String) × GitHub :=
  let g1 := { g with calls := g.calls ++ [Call.listMembers org role perPage] }
  if g.faults g.calls.length then (.error requestFailed, g1)
  else (.ok ((if role = "admin" then g.admins org else []).take perPage), g1)

/-- The request `Teams.ListTeamMembersBySlug` with a role and `PerPage`: one
page of the logins that hold the given role in the team.  A `github.User` is
its login here; the source dereferences `Login` without a nil check. -/
def GitHub.ListTeamMembersBySlug (g : GitHub) (org team role : String) (perPage : Nat) :
    Except String (List String) × GitHub :=
  let g1 := { g with calls := g.calls ++ [Call.listTeamMembersBySlug org team role perPage] }
  if g.faults g.calls.length then (.error requestFailed, g1)
  else (.ok ((((g.teams org team).filter (fun e => e.2 = role)).map Prod.fst).take perPage), g1)

/-- The request `Teams.AddTeamMembershipBySlug` with a role: add the user to
the team or change the role the user holds there.  The roster records the role
it is given. -/
def GitHub.AddTeamMembershipBySlug (g : GitHub) (org team user role : String) :
    Option String × GitHub :=
  let g1 := { g with calls := g.calls ++ [Call.addTeamMembershipBySlug org team user role] }
  if g.faults g.calls.length then (some requestFailed, g1)
  else (none, { g1 with teams := fun o t =>
      if o = org ∧ t = team then mapSet (g.teams o t) user role else g.teams o t })

/-- The request `Teams.RemoveTeamMembershipBySlug`: take the user off the team. -/
def GitHub.RemoveTeamMembershipBySlug (g : GitHub) (org team user : String) :
    Option String × GitHub :=
  let g1 := { g with calls := g.calls ++ [Call.removeTeamMembershipBySlug org team user] }
  if g.faults g.calls.length then (some requestFailed, g1)
  else (none, { g1 with teams := fun o t =>
      if o = org ∧ t = team then mapDelete (g.teams o t) user else g.teams o t })

/-- The requests that change a roster. -/
def Call.isMutation : Call → Bool
  | .addTeamMembershipBySlug _ _ _ _ => true
  | .removeTeamMembershipBySlug _ _ _ => true
  | _ => false

/-! ## Standard output and errors -/

/-- The three progress lines `Sync` prints with `fmt.Fprintf(os.Stdout, ...)`. -/
inductive Notice where
  | adding (user org team targetRole : String)
  | updating (user org team existingRole targetRole : String)
  | removing (user org team : String)
  deriving DecidableEq, Repr

/-- The request that `Sync` sends right after printing a line, when it is not a
dry run. -/
def Notice.toCall : Notice → Call
  | .adding user org team targetRole => .addTeamMembershipBySlug org team user targetRole
  | .updating user org team _ targetRole => .addTeamMembershipBySlug org team user targetRole
  | .removing user org team => .removeTeamMembershipBySlug org team user

/-- The call `errors.Join(merr, err)` for a non-nil `err`. -/
def errorsJoin (merr : List String) (err : String) : List String := merr ++ [err]

/-! ## The syncer -/

/-- The enterprise-installed org admins to ignore. -/
def ignoredOrgAdmins : List String := ["google-admin", "google-ospo-team", "googlebot"]

/-- A `Syncer`.  The GitHub client is passed along as a `GitHub` state; the
cache is `none` while the Go map is nil. -/
structure Syncer where
  dryRun : Bool
  orgAdminsCache : Option (List (String × List String))

/-- The constructor `NewSyncer`: the cache starts out nil. -/
def NewSyncer (dryRun : Bool) : Syncer := { dryRun := dryRun, orgAdminsCache := none }

/-- Read `s.orgAdminsCache[org]`; a nil map has no entries. -/
def Syncer.cached (s : Syncer) (org : String) : Option (List String) :=
  match s.orgAdminsCache with
  | none => none
  | some c => mapGet c org

/-- The loop of `OrgAdmins` that copies the listed admins into a set, leaving
out the ignored ones. -/
def collectOrgAdmins (orgAdmins : List String) : List String :=
  orgAdmins.foldl (fun m login => if login ∈ ignoredOrgAdmins then m else setInsert m login) []

/-- The method `OrgAdmins`: the org admins, through the cache, as one sequential
call.  Its two locked sections are `Syncer.lookupOrgAdmins` and
`Syncer.fetchOrgAdmins`. -/
def Syncer.OrgAdmins (s : Syncer) (g : GitHub) (org : String) :
    Except String (List String) × Syncer × GitHub :=
  match s.cached org with
  | some v => (.ok v, s, g)
  | none =>
    match g.ListMembers org "admin" 100 with
    | (.error err, g1) => (.error ("failed to get org admins for " ++ org ++ ": " ++ err), s, g1)
    | (.ok orgAdmins, g1) =>
      let m := collectOrgAdmins orgAdmins
      let cache := match s.orgAdminsCache with
        | none => []
        | some c => c
      (.ok m, { s with orgAdminsCache := some (mapSet cache org m) }, g1)

/-- The merge of the two listings into `existingMemberships`. -/
def existingMemberships (existingMembers existingMaintainers : List String) :
    List (String × String) :=
  existingMaintainers.foldl (fun m login => mapSet m login "maintainer")
    (existingMembers.foldl (fun m login => mapSet m login "member") [])

/-- The role `Sync` works with for a target entry: org admins are upgraded to
"maintainer". -/
def effectiveRole (orgAdmins : List String) (user targetRole : String) : String :=
  if user ∈ orgAdmins ∧ targetRole ≠ "maintainer" then "maintainer" else targetRole

/-- What `Sync` carries through its two loops: the joined error, the client
state and the lines printed so far. -/
structure Progress where
  merr : List String
  github : GitHub
  stdout : List Notice

/-- Print a line and, unless it is a dry run, send the add request, joining a
failure into `merr`. -/
def Syncer.addMembership (s : Syncer) (org team user targetRole : String) (line : Notice)
    (p : Progress) : Progress :=
  let out := p.stdout ++ [line]
  if !s.dryRun then
    match p.github.AddTeamMembershipBySlug org team user targetRole with
    | (some err, g1) =>
      { merr := errorsJoin p.merr
          ("failed to add " ++ user ++ " to " ++ org ++ "/" ++ team ++ ": " ++ err),
        github := g1, stdout := out }
    | (none, g1) => { p with github := g1, stdout := out }
  else { p with stdout := out }

/-- Body of the first loop of `Sync`, for one entry of `targetMemberships`. -/
def Syncer.syncTarget (s : Syncer) (org team : String) (orgAdmins : List String)
    (existing : List (String × String)) (p : Progress) (entry : String × String) : Progress :=
  let user := entry.1
  let ok := (mapGet existing user).isSome
  let existingRole := (mapGet existing user).getD ""
  let targetRole := effectiveRole orgAdmins user entry.2
  let p1 :=
    if !ok then
      s.addMembership org team user targetRole (.adding user org team targetRole) p
    else p
  if existingRole ≠ "" ∧ existingRole ≠ targetRole then
    s.addMembership org team user targetRole
      (.updating user org team existingRole targetRole) p1
  else p1

/-- Body of the second loop of `Sync`, for one entry of `existingMemberships`. -/
def Syncer.syncExisting (s : Syncer) (org team : String)
    (targetMemberships : List (String × String)) (p : Progress) (entry : String × String) :
    Progress :=
  let user := entry.1
  if (mapGet targetMemberships user).isSome then p
  else
    let out := p.stdout ++ [Notice.removing user org team]
    if !s.dryRun then
      match p.github.RemoveTeamMembershipBySlug org team user with
      | (some err, g1) =>
        { merr := errorsJoin p.merr
            ("failed to remove " ++ user ++ " from " ++ org ++ "/" ++ team ++ ": " ++ err),
          github := g1, stdout := out }
      | (none, g1) => { p with github := g1, stdout := out }
    else { p with stdout := out }

/-- The part of `Sync` after the listings: build `existingMemberships`, run the
add/update loop over the target, then the removal loop over the existing
memberships. -/
def Syncer.reconcile (s : Syncer) (g : GitHub) (org team : String) (orgAdmins : List String)
    (existingMembers existingMaintainers : List String)
    (targetMemberships : List (String × String)) : Progress :=
  let existing := existingMemberships existingMembers existingMaintainers
  let p1 := targetMemberships.foldl (s.syncTarget org team orgAdmins existing)
    { merr := [], github := g, stdout := [] }
  existing.foldl (s.syncExisting org team targetMemberships) p1

/-- Result of one `Sync`: the returned error (`[]` is nil), the syncer and the
client afterwards, and the lines printed. -/
structure SyncResult where
  err : List String
  syncer : Syncer
  github : GitHub
  stdout : List Notice

/-- What `Sync` has in hand once its three reads have succeeded. -/
structure Listing where
  orgAdmins : List String
  existingMembers : List String
  existingMaintainers : List String
  syncer : Syncer
  github : GitHub

/-- The opening of `Sync`: resolve the org admins, list the members, list the
maintainers.  A failure is the early return of `Sync`. -/
def Syncer.list (s : Syncer) (g : GitHub) (org team : String) : Except SyncResult Listing :=
  match s.OrgAdmins g org with
  | (.error err, s1, g1) => .error { err := [err], syncer := s1, github := g1, stdout := [] }
  | (.ok orgAdmins, s1, g1) =>
    match g1.ListTeamMembersBySlug org team "member" 100 with
    | (.error err, g2) =>
      .error { err := ["failed to get members for github team " ++ org ++ "/" ++ team ++ ": "
                 ++ err],
               syncer := s1, github := g2, stdout := [] }
    | (.ok existingMembers, g2) =>
      match g2.ListTeamMembersBySlug org team "maintainer" 100 with
      | (.error err, g3) =>
        .error { err := ["failed to get maintainers for github team " ++ org ++ "/" ++ team
                   ++ ": " ++ err],
                 syncer := s1, github := g3, stdout := [] }
      | (.ok existingMaintainers, g3) =>
        .ok { orgAdmins := orgAdmins, existingMembers := existingMembers,
              existingMaintainers := existingMaintainers, syncer := s1, github := g3 }

/-- The method `Sync`: make the team's memberships match `targetMemberships`. -/
def Syncer.Sync (s : Syncer) (g : GitHub) (org team : String)
    (targetMemberships : List (String × String)) : SyncResult :=
  match s.list g org team with
  | .error early => early
  | .ok l =>
    let p := l.syncer.reconcile l.github org team l.orgAdmins l.existingMembers
      l.existingMaintainers targetMemberships
    { err := p.merr, syncer := l.syncer, github := p.github, stdout := p.stdout }

/-- The requests made between two states of the client. -/
def newCalls (before after : GitHub) : List Call := after.calls.drop before.calls.length

/-! ## What one pass of each loop prints -/

/-- The lines the first loop prints for one target entry. -/
def targetNotices (org team : String) (orgAdmins : List String)
    (existing : List (String × String)) (entry : String × String) : List Notice :=
  match mapGet existing entry.1 with
  | none => [.adding entry.1 org team (effectiveRole orgAdmins entry.1 entry.2)]
  | some existingRole =>
    if existingRole ≠ "" ∧ existingRole ≠ effectiveRole orgAdmins entry.1 entry.2 then
      [.updating entry.1 org team existingRole (effectiveRole orgAdmins entry.1 entry.2)]
    else []

/-- The lines the second loop prints for one existing entry. -/
def removalNotices (org team : String) (targetMemberships : List (String × String))
    (entry : String × String) : List Notice :=
  if (mapGet targetMemberships entry.1).isSome then [] else [.removing entry.1 org team]

/-- All the lines the two loops print, in order. -/
def diffNotices (org team : String) (orgAdmins : List String)
    (existing targetMemberships : List (String × String)) : List Notice :=
  targetMemberships.flatMap (targetNotices org team orgAdmins existing)
    ++ existing.flatMap (removalNotices org team targetMemberships)

/-! ## Concrete directories used in the examples -/

/-- The logins "u0", "u1", ..., one for each number below `n`. -/
def logins (n : Nat) : List String := (List.range n).map (fun i => "u" ++ toString i)

/-- A directory in which the team abcxyz/go-readability has the given roster,
the organisation abcxyz has the given admins, and no request fails. -/
def directory (admins : List String) (roster : List (String × String)) : GitHub :=
  { admins := fun o => if o = "abcxyz" then admins else [],
    teams := fun o t => if o = "abcxyz" ∧ t = "go-readability" then roster else [],
    faults := fun _ => false,
    calls := [] }

/-- A team of 101 plain members, "u0" to "u100". -/
def bigTeam : GitHub := directory [] ((logins 101).map (fun u => (u, "member")))

/-- An organisation with 101 admins, "u0" to "u100". -/
def bigOrg : GitHub := directory (logins 101) []

/-- The target used with `bigTeam`: alice alone, as maintainer. -/
def aliceTarget : List (String × String) := [("alice", "maintainer")]

/-- The first `Sync` of `aliceTarget` against `bigTeam`. -/
def bigTeamFirstSync : SyncResult :=
  (NewSyncer false).Sync bigTeam "abcxyz" "go-readability" aliceTarget

/-- The second `Sync` of `aliceTarget`, run on what the first one left. -/
def bigTeamSecondSync : SyncResult :=
  bigTeamFirstSync.syncer.Sync bigTeamFirstSync.github "abcxyz" "go-readability" aliceTarget

/-- One call made on a syncer for an organisation: a `Sync` of some team, or a
direct `OrgAdmins`. -/
inductive Request where
  | sync (team : String) (targetMemberships : List (String × String))
  | orgAdmins

/-- A sequence of calls made one after the other on one syncer, all for the
same organisation. -/
def Syncer.run (s : Syncer) (g : GitHub) (org : String) : List Request → Syncer × GitHub
  | [] => (s, g)
  | .sync team targetMemberships :: rest =>
    Syncer.run (s.Sync g org team targetMemberships).syncer
      (s.Sync g org team targetMemberships).github org rest
  | .orgAdmins :: rest =>
    Syncer.run (s.OrgAdmins g org).2.1 (s.OrgAdmins g org).2.2 org rest

/-- How often the org admins of `org` were fetched, according to the log. -/
def fetches (g : GitHub) (org : String) : Nat :=
  g.calls.count (Call.listMembers org "admin" 100)

/-- A fresh directory in which dave is the only org admin and the team is
empty. -/
def daveDirectory : GitHub := directory ["dave"] []

/-- The directory of `daveDirectory` in which the very first request fails. -/
def flakyDirectory : GitHub := { daveDirectory with faults := fun n => n == 0 }

/-- What `Sync` has read in `daveDirectory`. -/
def daveListing : Listing :=
  { orgAdmins := ["dave"], existingMembers := [], existingMaintainers := [],
    syncer := { dryRun := false, orgAdminsCache := some [("abcxyz", ["dave"])] },
    github := { daveDirectory with
      calls := [Call.listMembers "abcxyz" "admin" 100,
        Call.listTeamMembersBySlug "abcxyz" "go-readability" "member" 100,
        Call.listTeamMembersBySlug "abcxyz" "go-readability" "maintainer" 100] } }

/-- A directory without org admins in which alice is a member and bob a
maintainer of the team. -/
def smallDirectory : GitHub := directory [] [("alice", "member"), ("bob", "maintainer")]

/-- What a `Sync` with the given dry-run flag has read in `smallDirectory`. -/
def smallListing (dryRun : Bool) : Listing :=
  { orgAdmins := [], existingMembers := ["alice"], existingMaintainers := ["bob"],
    syncer := { dryRun := dryRun, orgAdminsCache := some [("abcxyz", [])] },
    github := { smallDirectory with
      calls := [Call.listMembers "abcxyz" "admin" 100,
        Call.listTeamMembersBySlug "abcxyz" "go-readability" "member" 100,
        Call.listTeamMembersBySlug "abcxyz" "go-readability" "maintainer" 100] } }

/-- The target of the worked example. -/
def smallTarget : List (String × String) := [("alice", "maintainer"), ("carol", "member")]

/-! ## Failed requests -/

/-- The user a progress line is about. -/
def Notice.user : Notice → String
  | .adding user _ _ _ => user
  | .updating user _ _ _ _ => user
  | .removing user _ _ => user

/-- The user an add or remove request is about; a read request has none. -/
def Call.user : Call → String
  | .addTeamMembershipBySlug _ _ user _ => user
  | .removeTeamMembershipBySlug _ _ user => user
  | _ => ""

/-- The error `Sync` joins into `merr` when the request that follows a progress
line fails.  The add and the update branch both say "failed to add". -/
def Notice.failure : Notice → String
  | .adding user org team _ =>
    "failed to add " ++ user ++ " to " ++ org ++ "/" ++ team ++ ": " ++ requestFailed
  | .updating user org team _ _ =>
    "failed to add " ++ user ++ " to " ++ org ++ "/" ++ team ++ ": " ++ requestFailed
  | .removing user org team =>
    "failed to remove " ++ user ++ " from " ++ org ++ "/" ++ team ++ ": " ++ requestFailed

/-- The errors of the requests that fail when the requests for the given lines
are sent one after the other, the first one being request number `n`. -/
def failures (faults : Nat → Bool) : Nat → List Notice → List String
  | _, [] => []
  | n, line :: lines =>
    (if faults n then [line.failure] else []) ++ failures faults (n + 1) lines

/-- The client with the same directory and log in which no request fails. -/
def GitHub.reliable (g : GitHub) : GitHub := { g with faults := fun _ => false }

/-! ## The run driver (`internal/cmd/sync/main.go`) -/

namespace Main

/-- The organisation the run works on. -/
def org : String := "abcxyz"

/-- Lexicographic order on lists of characters, by code point. -/
def charsLe : List Char → List Char → Bool
  | [], _ => true
  | _ :: _, [] => false
  | a :: as, b :: bs => a.toNat < b.toNat || (a.toNat == b.toNat && charsLe as bs)

/-- The order of Go strings that `slices.Sorted` uses. -/
def stringLe (a b : String) : Bool := charsLe a.data b.data

/-- The languages in the order of the loop: `slices.Sorted(maps.Keys(configs))`. -/
def sortedKeys (configs : List (String × List (String × String))) : List String :=
  (configs.map Prod.fst).insertionSort (fun a b => stringLe a b = true)

/-- Record of one `Sync` call made by the run: its arguments, the error it
returned and the lines it printed. -/
structure SyncCall where
  language : String
  team : String
  targetMemberships : List (String × String)
  err : List String
  stdout : List Notice
  deriving DecidableEq, Repr

/-- What the loop of `realMain` carries: the joined error, the syncer, the
client, and the record of the `Sync` calls made so far. -/
structure Run where
  merr : List String
  syncer : Syncer
  github : GitHub
  syncs : List SyncCall

/-- The error `fmt.Errorf("failed to sync %s: %w", language, err)`; the text of
a joined error is its messages, one per line. -/
def syncFailure (language : String) (err : List String) : String :=
  "failed to sync " ++ language ++ ": " ++ "\n".intercalate err

/-- One `if err := syncer.Sync(...); err != nil` step of the loop body. -/
def syncTeam (language team : String) (targetMemberships : List (String × String))
    (st : Run) : Run :=
  let r := st.syncer.Sync st.github org team targetMemberships
  let call : SyncCall :=
    { language := language, team := team, targetMemberships := targetMemberships,
      err := r.err, stdout := r.stdout }
  { merr := if r.err ≠ [] then errorsJoin st.merr (syncFailure language r.err) else st.merr,
    syncer := r.syncer,
    github := r.github,
    syncs := st.syncs ++ [call] }

/-- The map `targetApproverMemberships` the loop body builds: the entries of
`targetMemberships` whose value is "maintainer". -/
def targetApproverMemberships (targetMemberships : List (String × String)) :
    List (String × String) :=
  targetMemberships.foldl (fun m kv => if kv.2 = "maintainer" then mapSet m kv.1 kv.2 else m) []

/-- Body of the loop of `realMain` for one language: sync the readability team,
then the approvers team. -/
def syncLanguage (configs : List (String × List (String × String))) (st : Run)
    (language : String) : Run :=
  let targetMemberships := (mapGet configs language).getD []
  let st1 := syncTeam language (language ++ "-readability") targetMemberships st
  syncTeam language (language ++ "-readability-approvers")
    (targetApproverMemberships targetMemberships) st1

/-- The part of `realMain` that follows the parsing of the YAML files: create
the syncer and sync the two teams of every language, in sorted order.  The
parsed `configs` are the input; the lines `realMain` prints itself (the dry-run
notice and one line per language) are left out. -/
def realMain (dryRun : Bool) (g : GitHub) (configs : List (String × List (String × String))) :
    Run :=
  (sortedKeys configs).foldl (syncLanguage configs)
    { merr := [], syncer := NewSyncer dryRun, github := g, syncs := [] }

end Main

/-! ## The calls of a run, and more concrete directories -/

namespace Main

/-- The arguments of a recorded `Sync` call: language, team and target. -/
def SyncCall.args (c : SyncCall) : String × String × List (String × String) :=
  (c.language, c.team, c.targetMemberships)

/-- The two `Sync` calls the loop body makes for a language, as (language, team,
target): the readability team with the configured mapping, then the approvers
team with `targetApproverMemberships` of it. -/
def groups (configs : List (String × List (String × String))) (language : String) :
    List (String × String × List (String × String)) :=
  [(language, language ++ "-readability", (mapGet configs language).getD []),
   (language, language ++ "-readability-approvers",
      targetApproverMemberships ((mapGet configs language).getD []))]

end Main

/-- A directory without org admins and with empty teams, in which nothing
fails. -/
def emptyDirectory : GitHub := directory [] []

/-- A configuration with a role that is neither "member" nor "maintainer". -/
def ownerConfigs : List (String × List (String × String)) := [("go", [("eve", "owner")])]

/-- A configuration of one language in which dave is configured as member. -/
def daveConfigs : List (String × List (String × String)) := [("go", [("dave", "member")])]

/-- The directory of the worked example in which the request number 4, the
second add or remove request of a `Sync` on a new syncer, fails. -/
def faultyDirectory : GitHub := { smallDirectory with faults := fun n => n == 4 }

/-- What a `Sync` on a new syncer has read in `faultyDirectory`. -/
def faultyListing : Listing :=
  { orgAdmins := [], existingMembers := ["alice"], existingMaintainers := ["bob"],
    syncer := { dryRun := false, orgAdminsCache := some [("abcxyz", [])] },
    github := { faultyDirectory with
      calls := [Call.listMembers "abcxyz" "admin" 100,
        Call.listTeamMembersBySlug "abcxyz" "go-readability" "member" 100,
        Call.listTeamMembersBySlug "abcxyz" "go-readability" "maintainer" 100] } }

/-! ## The adjusted role, in the words of the specification -/

/-- Stated from the specification, not from the code (4.2 step 3 and the admin
override invariant): the role an identity is to hold in a group is "maintainer"
when the identity is an org admin, whatever role the target requests, and the
requested role otherwise.  The code's own computation is `effectiveRole`. -/
def adjustedRole (orgAdmins : List String) (identity role : String) : String :=
  if identity ∈ orgAdmins then "maintainer" else role

/-! ## The two locked sections of `OrgAdmins` -/

/-- The fast path of `OrgAdmins`: the lookup it makes between `RLock` and
`RUnlock`. -/
def Syncer.lookupOrgAdmins (s : Syncer) (org : String) : Option (List String) :=
  s.cached org

/-- The slow path of `OrgAdmins`: what it does between `Lock` and the deferred
`Unlock`, after the lookup has missed: fetch the admins, leave out the ignored
ones, store the set.  The cache is not looked up again here. -/
def Syncer.fetchOrgAdmins (s : Syncer) (g : GitHub) (org : String) :
    Except String (List String) × Syncer × GitHub :=
  match g.ListMembers org "admin" 100 with
  | (.error err, g1) => (.error ("failed to get org admins for " ++ org ++ ": " ++ err), s, g1)
  | (.ok orgAdmins, g1) =>
    let m := collectOrgAdmins orgAdmins
    let cache := match s.orgAdminsCache with
      | none => []
      | some c => c
    (.ok m, { s with orgAdminsCache := some (mapSet cache org m) }, g1)

/-- Two goroutines, A and B, call `OrgAdmins` for the same organisation on one
syncer at the same time, in the schedule in which both finish the read-locked
lookup before either takes the write lock.  The write lock lets the two slow
paths run one at a time, A first, each on the syncer and the client as the
other left them.  The result is what A and B return, then the syncer and the
client afterwards. -/
def Syncer.racingOrgAdmins (s : Syncer) (g : GitHub) (org : String) :
    (Except String (List String) × Except String (List String)) × Syncer × GitHub :=
  let lookupA := s.lookupOrgAdmins org
  let lookupB := s.lookupOrgAdmins org
  let a : Except String (List String) × Syncer × GitHub :=
    match lookupA with
    | some v => (.ok v, s, g)
    | none => s.fetchOrgAdmins g org
  let b : Except String (List String) × Syncer × GitHub :=
    match lookupB with
    | some v => (.ok v, a.2.1, a.2.2)
    | none => a.2.1.fetchOrgAdmins a.2.2 org
  ((a.1, b.1), b.2.1, b.2.2)

/-! ## More concrete directories -/

/-- A target equal to the roster of `bigTeam`: "u0" to "u100", all members. -/
def bigTarget : List (String × String) := (logins 101).map (fun u => (u, "member"))

/-- The `Sync` of `bigTarget` against `bigTeam`. -/
def bigTeamSameSync : SyncResult :=
  (NewSyncer false).Sync bigTeam "abcxyz" "go-readability" bigTarget

/-- A directory in which dave is an org admin and a plain member of the team,
and bob is a maintainer of it. -/
def adminDirectory : GitHub := directory ["dave"] [("dave", "member"), ("bob", "maintainer")]

/-- What a `Sync` on a new syncer has read in `adminDirectory`. -/
def adminListing : Listing :=
  { orgAdmins := ["dave"], existingMembers := ["dave"], existingMaintainers := ["bob"],
    syncer := { dryRun := false, orgAdminsCache := some [("abcxyz", ["dave"])] },
    github := { adminDirectory with
      calls := [Call.listMembers "abcxyz" "admin" 100,
        Call.listTeamMembersBySlug "abcxyz" "go-readability" "member" 100,
        Call.listTeamMembersBySlug "abcxyz" "go-readability" "maintainer" 100] } }

/-- A target that asks for dave, an org admin, and carol as members. -/
def adminTarget : List (String × String) := [("dave", "member"), ("carol", "member")]

theorem add_calls (g : GitHub) (org team user r : String) :
    (g.AddTeamMembershipBySlug org team user r).2.calls
      = g.calls ++ [Call.addTeamMembershipBySlug org team user r] := by
  unfold GitHub.AddTeamMembershipBySlug
  split <;> rfl

theorem add_faults (g : GitHub) (org team user r : String) :
    (g.AddTeamMembershipBySlug org team user r).2.faults = g.faults := by
  unfold GitHub.AddTeamMembershipBySlug
  split <;> rfl

theorem add_admins (g : GitHub) (org team user r : String) :
    (g.AddTeamMembershipBySlug org team user r).2.admins = g.admins := by
  unfold GitHub.AddTeamMembershipBySlug
  split <;> rfl

theorem remove_calls (g : GitHub) (org team user : String) :
    (g.RemoveTeamMembershipBySlug org team user).2.calls
      = g.calls ++ [Call.removeTeamMembershipBySlug org team user] := by
  unfold GitHub.RemoveTeamMembershipBySlug
  split <;> rfl

theorem remove_faults (g : GitHub) (org team user : String) :
    (g.RemoveTeamMembershipBySlug org team user).2.faults = g.faults := by
  unfold GitHub.RemoveTeamMembershipBySlug
  split <;> rfl

theorem remove_admins (g : GitHub) (org team user : String) :
    (g.RemoveTeamMembershipBySlug org team user).2.admins = g.admins := by
  unfold GitHub.RemoveTeamMembershipBySlug
  split <;> rfl

/-! ## Lemmas: the loops -/

theorem addMembership_stdout (s : Syncer) (org team user r : String) (line : Notice)
    (p : Progress) :
    (s.addMembership org team user r line p).stdout = p.stdout ++ [line] := by
  unfold Syncer.addMembership
  cases hd : s.dryRun
  · rcases h : p.github.AddTeamMembershipBySlug org team user r with ⟨e, g1⟩
    cases e <;> simp
  · simp

theorem addMembership_calls (s : Syncer) (org team user r : String) (line : Notice)
    (p : Progress) :
    (s.addMembership org team user r line p).github.calls
      = p.github.calls
        ++ (if s.dryRun then [] else [Call.addTeamMembershipBySlug org team user r]) := by
  unfold Syncer.addMembership
  cases hd : s.dryRun
  · have hc := add_calls p.github org team user r
    rcases h : p.github.AddTeamMembershipBySlug org team user r with ⟨e, g1⟩
    rw [h] at hc
    cases e <;> simpa using hc
  · simp

theorem addMembership_dry (s : Syncer) (org team user r : String) (line : Notice)
    (p : Progress) (hd : s.dryRun = true) :
    (s.addMembership org team user r line p).github = p.github
      ∧ (s.addMembership org team user r line p).merr = p.merr := by
  simp [Syncer.addMembership, hd]

theorem syncTarget_stdout (s : Syncer) (org team : String) (orgAdmins : List String)
    (existing : List (String × String)) (p : Progress) (entry : String × String) :
    (s.syncTarget org team orgAdmins existing p entry).stdout
      = p.stdout ++ targetNotices org team orgAdmins existing entry := by
  cases h : mapGet existing entry.1 with
  | none => simp [Syncer.syncTarget, targetNotices, h, addMembership_stdout]
  | some e =>
    by_cases hc : e ≠ "" ∧ e ≠ effectiveRole orgAdmins entry.1 entry.2
    · simp only [Syncer.syncTarget, targetNotices, h, Option.isSome_some, Option.getD_some,
        Bool.not_true, if_pos hc]
      simp [addMembership_stdout]
    · simp only [Syncer.syncTarget, targetNotices, h, Option.isSome_some, Option.getD_some,
        Bool.not_true, if_neg hc]
      simp

theorem syncTarget_calls (s : Syncer) (org team : String) (orgAdmins : List String)
    (existing : List (String × String)) (p : Progress) (entry : String × String) :
    (s.syncTarget org team orgAdmins existing p entry).github.calls
      = p.github.calls ++ (if s.dryRun then []
          else (targetNotices org team orgAdmins existing entry).map Notice.toCall) := by
  cases h : mapGet existing entry.1 with
  | none =>
    cases hd : s.dryRun <;>
      simp [Syncer.syncTarget, targetNotices, h, addMembership_calls, hd, Notice.toCall]
  | some e =>
    by_cases hc : e ≠ "" ∧ e ≠ effectiveRole orgAdmins entry.1 entry.2
    · simp only [Syncer.syncTarget, targetNotices, h, Option.isSome_some, Option.getD_some,
        Bool.not_true, if_pos hc]
      cases hd : s.dryRun <;> simp [addMembership_calls, hd, Notice.toCall]
    · simp only [Syncer.syncTarget, targetNotices, h, Option.isSome_some, Option.getD_some,
        Bool.not_true, if_neg hc]
      cases hd : s.dryRun <;> simp

theorem syncTarget_dry (s : Syncer) (org team : String) (orgAdmins : List String)
    (existing : List (String × String)) (p : Progress) (entry : String × String)
    (hd : s.dryRun = true) :
    (s.syncTarget org team orgAdmins existing p entry).github = p.github
      ∧ (s.syncTarget org team orgAdmins existing p entry).merr = p.merr := by
  have h1 := fun u r line q => (addMembership_dry s org team u r line q hd).1
  have h2 := fun u r line q => (addMembership_dry s org team u r line q hd).2
  simp only [Syncer.syncTarget]
  constructor <;> split <;> split <;> simp [h1, h2]

theorem syncExisting_stdout (s : Syncer) (org team : String)
    (targetMemberships : List (String × String)) (p : Progress) (entry : String × String) :
    (s.syncExisting org team targetMemberships p entry).stdout
      = p.stdout ++ removalNotices org team targetMemberships entry := by
  unfold Syncer.syncExisting removalNotices
  by_cases hc : (mapGet targetMemberships entry.1).isSome = true
  · simp [hc]
  · simp only [hc, if_false]
    cases hd : s.dryRun
    · rcases h : p.github.RemoveTeamMembershipBySlug org team entry.1 with ⟨e, g1⟩
      cases e <;> simp
    · simp

theorem syncExisting_calls (s : Syncer) (org team : String)
    (targetMemberships : List (String × String)) (p : Progress) (entry : String × String) :
    (s.syncExisting org team targetMemberships p entry).github.calls
      = p.github.calls ++ (if s.dryRun then []
          else (removalNotices org team targetMemberships entry).map Notice.toCall) := by
  unfold Syncer.syncExisting removalNotices
  by_cases hc : (mapGet targetMemberships entry.1).isSome = true
  · simp [hc]
  · simp only [hc, if_false]
    cases hd : s.dryRun
    · have hcalls := remove_calls p.github org team entry.1
      rcases h : p.github.RemoveTeamMembershipBySlug org team entry.1 with ⟨e, g1⟩
      rw [h] at hcalls
      cases e <;> simpa [Notice.toCall] using hcalls
    · simp

theorem syncExisting_dry (s : Syncer) (org team : String)
    (targetMemberships : List (String × String)) (p : Progress) (entry : String × String)
    (hd : s.dryRun = true) :
    (s.syncExisting org team targetMemberships p entry).github = p.github
      ∧ (s.syncExisting org team targetMemberships p entry).merr = p.merr := by
  simp only [Syncer.syncExisting]
  constructor <;> split <;> simp [hd]

theorem foldl_syncTarget_stdout (s : Syncer) (org team : String) (orgAdmins : List String)
    (existing : List (String × String)) (T : List (String × String)) (p : Progress) :
    (T.foldl (s.syncTarget org team orgAdmins existing) p).stdout
      = p.stdout ++ T.flatMap (targetNotices org team orgAdmins existing) := by
  induction T generalizing p with
  | nil => simp
  | cons e T ih => simp [ih, syncTarget_stdout]

theorem foldl_syncTarget_calls (s : Syncer) (org team : String) (orgAdmins : List String)
    (existing : List (String × String)) (T : List (String × String)) (p : Progress) :
    (T.foldl (s.syncTarget org team orgAdmins existing) p).github.calls
      = p.github.calls ++ (if s.dryRun then []
          else (T.flatMap (targetNotices org team orgAdmins existing)).map Notice.toCall) := by
  induction T generalizing p with
  | nil => simp
  | cons e T ih =>
    simp only [List.foldl_cons, ih, syncTarget_calls]
    cases hd : s.dryRun <;> simp

theorem foldl_syncTarget_dry (s : Syncer) (org team : String) (orgAdmins : List String)
    (existing : List (String × String)) (T : List (String × String)) (p : Progress)
    (hd : s.dryRun = true) :
    (T.foldl (s.syncTarget org team orgAdmins existing) p).github = p.github
      ∧ (T.foldl (s.syncTarget org team orgAdmins existing) p).merr = p.merr := by
  induction T generalizing p with
  | nil => simp
  | cons e T ih =>
    have h := syncTarget_dry s org team orgAdmins existing p e hd
    simp only [List.foldl_cons]
    rw [(ih _).1, (ih _).2]
    exact h

theorem foldl_syncExisting_stdout (s : Syncer) (org team : String)
    (T : List (String × String)) (E : List (String × String)) (p : Progress) :
    (E.foldl (s.syncExisting org team T) p).stdout
      = p.stdout ++ E.flatMap (removalNotices org team T) := by
  induction E generalizing p with
  | nil => simp
  | cons e E ih => simp [ih, syncExisting_stdout]

theorem foldl_syncExisting_calls (s : Syncer) (org team : String)
    (T : List (String × String)) (E : List (String × String)) (p : Progress) :
    (E.foldl (s.syncExisting org team T) p).github.calls
      = p.github.calls ++ (if s.dryRun then []
          else (E.flatMap (removalNotices org team T)).map Notice.toCall) := by
  induction E generalizing p with
  | nil => simp
  | cons e E ih =>
    simp only [List.foldl_cons, ih, syncExisting_calls]
    cases hd : s.dryRun <;> simp

theorem foldl_syncExisting_dry (s : Syncer) (org team : String)
    (T : List (String × String)) (E : List (String × String)) (p : Progress)
    (hd : s.dryRun = true) :
    (E.foldl (s.syncExisting org team T) p).github = p.github
      ∧ (E.foldl (s.syncExisting org team T) p).merr = p.merr := by
  induction E generalizing p with
  | nil => simp
  | cons e E ih =>
    have h := syncExisting_dry s org team T p e hd
    simp only [List.foldl_cons]
    rw [(ih _).1, (ih _).2]
    exact h

theorem reconcile_stdout (s : Syncer) (g : GitHub) (org team : String) (A ms mts : List String)
    (T : List (String × String)) :
    (s.reconcile g org team A ms mts T).stdout
      = diffNotices org team A (existingMemberships ms mts) T := by
  simp [Syncer.reconcile, diffNotices, foldl_syncExisting_stdout, foldl_syncTarget_stdout]

theorem reconcile_calls (s : Syncer) (g : GitHub) (org team : String) (A ms mts : List String)
    (T : List (String × String)) :
    (s.reconcile g org team A ms mts T).github.calls
      = g.calls ++ (if s.dryRun then []
          else (diffNotices org team A (existingMemberships ms mts) T).map Notice.toCall) := by
  simp only [Syncer.reconcile, diffNotices, foldl_syncExisting_calls, foldl_syncTarget_calls]
  cases hd : s.dryRun <;> simp

theorem reconcile_dry (s : Syncer) (g : GitHub) (org team : String) (A ms mts : List String)
    (T : List (String × String)) (hd : s.dryRun = true) :
    (s.reconcile g org team A ms mts T).github = g
      ∧ (s.reconcile g org team A ms mts T).merr = [] := by
  simp only [Syncer.reconcile]
  rw [(foldl_syncExisting_dry s org team T _ _ hd).1, (foldl_syncExisting_dry s org team T _ _ hd).2,
    (foldl_syncTarget_dry s org team A _ T _ hd).1, (foldl_syncTarget_dry s org team A _ T _ hd).2]
  exact ⟨rfl, rfl⟩

/-! ## Lemmas: the reads -/

theorem listMembers_snd (g : GitHub) (org role : String) (n : Nat) :
    (g.ListMembers org role n).2
      = { g with calls := g.calls ++ [Call.listMembers org role n] } := by
  unfold GitHub.ListMembers
  split <;> rfl

theorem listTeam_snd (g : GitHub) (org team role : String) (n : Nat) :
    (g.ListTeamMembersBySlug org team role n).2
      = { g with calls := g.calls ++ [Call.listTeamMembersBySlug org team role n] } := by
  unfold GitHub.ListTeamMembersBySlug
  split <;> rfl

/-- A state of the client that differs from `g` by reads only: same admins,
rosters and fault schedule, and a log extended by requests that change nothing. -/
theorem orgAdmins_reads (s : Syncer) (g : GitHub) (org : String) :
    (s.OrgAdmins g org).2.2.admins = g.admins
      ∧ (s.OrgAdmins g org).2.2.teams = g.teams
      ∧ (s.OrgAdmins g org).2.2.faults = g.faults
      ∧ (s.OrgAdmins g org).2.2.calls
          = g.calls ++ (if (s.cached org).isSome then [] else [Call.listMembers org "admin" 100])
      ∧ (s.OrgAdmins g org).2.1.dryRun = s.dryRun := by
  unfold Syncer.OrgAdmins
  cases hc : s.cached org with
  | some v => simp
  | none =>
    have h2 := listMembers_snd g org "admin" 100
    rcases h : g.ListMembers org "admin" 100 with ⟨r, g1⟩
    rw [h] at h2
    simp only at h2
    subst h2
    cases r <;> simp

theorem list_ok (s : Syncer) (g : GitHub) (org team : String) (l : Listing)
    (h : s.list g org team = .ok l) :
    (s.OrgAdmins g org).1 = .ok l.orgAdmins
      ∧ l.syncer = (s.OrgAdmins g org).2.1
      ∧ l.syncer.dryRun = s.dryRun
      ∧ l.existingMembers
          = (((g.teams org team).filter (fun e => e.2 = "member")).map Prod.fst).take 100
      ∧ l.existingMaintainers
          = (((g.teams org team).filter (fun e => e.2 = "maintainer")).map Prod.fst).take 100
      ∧ l.github.admins = g.admins ∧ l.github.teams = g.teams ∧ l.github.faults = g.faults
      ∧ l.github.calls = (s.OrgAdmins g org).2.2.calls
          ++ [Call.listTeamMembersBySlug org team "member" 100,
              Call.listTeamMembersBySlug org team "maintainer" 100] := by
  obtain ⟨ha, ht, hf, -, hd⟩ := orgAdmins_reads s g org
  unfold Syncer.list at h
  rcases ho : s.OrgAdmins g org with ⟨r, s1, g1⟩
  rw [ho] at h ha ht hf hd
  simp only at ha ht hf hd
  cases r with
  | error e => simp at h
  | ok A =>
    simp only at h
    have h2 := listTeam_snd g1 org team "member" 100
    rcases hm : g1.ListTeamMembersBySlug org team "member" 100 with ⟨r2, g2⟩
    rw [hm] at h h2
    simp only at h2
    cases r2 with
    | error e => simp at h
    | ok ms =>
      simp only at h
      have h3 := listTeam_snd g2 org team "maintainer" 100
      rcases hmt : g2.ListTeamMembersBySlug org team "maintainer" 100 with ⟨r3, g3⟩
      rw [hmt] at h h3
      simp only at h3
      cases r3 with
      | error e => simp at h
      | ok mts =>
        simp only [Except.ok.injEq] at h
        subst h
        subst h3
        subst h2
        unfold GitHub.ListTeamMembersBySlug at hm hmt
        simp only at hm hmt
        split at hm
        · simp at hm
        · split at hmt
          · simp at hmt
          · simp only [Prod.mk.injEq, Except.ok.injEq] at hm hmt
            refine ⟨rfl, rfl, hd, ?_, ?_, ha, ht, hf, ?_⟩
            · rw [← hm.1, ht]
            · rw [← hmt.1, ht]
            · simp

theorem list_error (s : Syncer) (g : GitHub) (org team : String) (r : SyncResult)
    (h : s.list g org team = .error r) :
    r.stdout = [] ∧ r.err ≠ [] ∧ r.syncer.dryRun = s.dryRun
      ∧ r.github.admins = g.admins ∧ r.github.teams = g.teams ∧ r.github.faults = g.faults
      ∧ ∃ reads, r.github.calls = g.calls ++ reads ∧ ∀ c ∈ reads, c.isMutation = false := by
  obtain ⟨ha, ht, hf, hc, hd⟩ := orgAdmins_reads s g org
  unfold Syncer.list at h
  rcases ho : s.OrgAdmins g org with ⟨r1, s1, g1⟩
  rw [ho] at h ha ht hf hd hc
  simp only at ha ht hf hd hc
  have hc1 : ∃ reads, g1.calls = g.calls ++ reads ∧ ∀ c ∈ reads, c.isMutation = false := by
    rw [hc]; split
    · exact ⟨[], by simp⟩
    · exact ⟨_, rfl, by simp [Call.isMutation]⟩
  obtain ⟨rd, hrd, hrd2⟩ := hc1
  cases r1 with
  | error e =>
    simp only [Except.error.injEq] at h
    subst h
    exact ⟨rfl, by simp, hd, ha, ht, hf, rd, hrd, hrd2⟩
  | ok A =>
    simp only at h
    have h2 := listTeam_snd g1 org team "member" 100
    rcases hm : g1.ListTeamMembersBySlug org team "member" 100 with ⟨r2, g2⟩
    rw [hm] at h h2
    simp only at h2
    cases r2 with
    | error e =>
      simp only [Except.error.injEq] at h
      subst h
      subst h2
      refine ⟨rfl, by simp, hd, ha, ht, hf, rd ++ [Call.listTeamMembersBySlug org team "member" 100],
        by simp [hrd], ?_⟩
      intro c hcm
      rcases List.mem_append.1 hcm with hcm | hcm
      · exact hrd2 c hcm
      · simp only [List.mem_singleton] at hcm
        subst hcm; rfl
    | ok ms =>
      simp only at h
      have h3 := listTeam_snd g2 org team "maintainer" 100
      rcases hmt : g2.ListTeamMembersBySlug org team "maintainer" 100 with ⟨r3, g3⟩
      rw [hmt] at h h3
      simp only at h3
      cases r3 with
      | error e =>
        simp only [Except.error.injEq] at h
        subst h
        subst h3
        subst h2
        refine ⟨rfl, by simp, hd, ha, ht, hf, rd ++ [Call.listTeamMembersBySlug org team "member" 100,
          Call.listTeamMembersBySlug org team "maintainer" 100], by simp [hrd], ?_⟩
        intro c hcm
        rcases List.mem_append.1 hcm with hcm | hcm
        · exact hrd2 c hcm
        · simp only [List.mem_cons, List.mem_singleton, List.not_mem_nil, or_false] at hcm
          rcases hcm with hcm | hcm <;> (subst hcm; rfl)
      | ok mts => simp at h

theorem sync_of_list_ok (s : Syncer) (g : GitHub) (org team : String)
    (T : List (String × String)) (l : Listing) (h : s.list g org team = .ok l) :
    (s.Sync g org team T).stdout
        = diffNotices org team l.orgAdmins
            (existingMemberships l.existingMembers l.existingMaintainers) T
      ∧ (s.Sync g org team T).github.calls
        = l.github.calls ++ (if s.dryRun then []
            else (diffNotices org team l.orgAdmins
              (existingMemberships l.existingMembers l.existingMaintainers) T).map
                Notice.toCall)
      ∧ (s.Sync g org team T).syncer = l.syncer := by
  have hd := (list_ok s g org team l h).2.2.1
  simp [Syncer.Sync, h, reconcile_stdout, reconcile_calls, hd]

/-! ## Lemmas: maps and the diff -/

theorem mapGet_mapSet {α : Type} (m : List (String × α)) (k : String) (v : α) (k2 : String) :
    mapGet (mapSet m k v) k2 = if k = k2 then some v else mapGet m k2 := by
  induction m with
  | nil => simp [mapSet, mapGet]
  | cons e m ih =>
    obtain ⟨k1, v1⟩ := e
    by_cases h1 : k1 = k
    · subst h1
      by_cases h2 : k1 = k2 <;> simp [mapSet, mapGet, h2]
    · by_cases h2 : k1 = k2
      · subst h2
        have h3 : ¬ k = k1 := fun h => h1 h.symm
        simp [mapSet, mapGet, h1, h3]
      · simp [mapSet, mapGet, h1, h2, ih]

theorem mapGet_eq_none_iff {α : Type} (m : List (String × α)) (k : String) :
    mapGet m k = none ↔ ∀ v, (k, v) ∉ m := by
  induction m with
  | nil => simp [mapGet]
  | cons e m ih =>
    obtain ⟨k1, v1⟩ := e
    by_cases h1 : k1 = k
    · subst h1
      simp only [mapGet, if_true, reduceCtorEq, false_iff, not_forall, not_not]
      exact ⟨v1, List.mem_cons_self _ _⟩
    · have h3 : ¬ k = k1 := fun h => h1 h.symm
      simp [mapGet, h1, ih, h3]

theorem mapGet_of_mem {α : Type} (m : List (String × α)) (hm : (m.map Prod.fst).Nodup)
    (k : String) (v : α) : mapGet m k = some v ↔ (k, v) ∈ m := by
  induction m with
  | nil => simp [mapGet]
  | cons e m ih =>
    obtain ⟨k1, v1⟩ := e
    simp only [List.map_cons, List.nodup_cons] at hm
    by_cases h1 : k1 = k
    · subst h1
      have hn : ∀ w, (k1, w) ∉ m := fun w hw => hm.1 (List.mem_map.2 ⟨_, hw, rfl⟩)
      simp [mapGet, hn]
      exact eq_comm
    · have h3 : ¬ k = k1 := fun h => h1 h.symm
      simp [mapGet, h1, ih hm.2, h3]

theorem existingMemberships_role (ms mts : List String) (u e : String)
    (h : mapGet (existingMemberships ms mts) u = some e) : e = "member" ∨ e = "maintainer" := by
  have key : ∀ (role : String) (l : List String) (m : List (String × String)),
      (∀ u e, mapGet m u = some e → e = "member" ∨ e = "maintainer") →
      (role = "member" ∨ role = "maintainer") →
      ∀ u e, mapGet (l.foldl (fun m login => mapSet m login role) m) u = some e →
        e = "member" ∨ e = "maintainer" := by
    intro role l
    induction l with
    | nil => intro m hm _ u e h; exact hm u e h
    | cons x l ih =>
      intro m hm hr u e h
      refine ih (mapSet m x role) ?_ hr u e h
      intro u2 e2 h2
      rw [mapGet_mapSet] at h2
      split at h2
      · simp only [Option.some.injEq] at h2
        rw [← h2]; exact hr
      · exact hm u2 e2 h2
  unfold existingMemberships at h
  refine key "maintainer" mts _ ?_ (Or.inr rfl) u e h
  exact key "member" ms [] (by intro u e h; simp [mapGet] at h) (Or.inl rfl)

theorem mem_diffNotices_adding (org team : String) (A : List String)
    (E T : List (String × String)) (u o t r : String) :
    Notice.adding u o t r ∈ diffNotices org team A E T
      ↔ o = org ∧ t = team ∧ ∃ tr, (u, tr) ∈ T ∧ mapGet E u = none
          ∧ r = effectiveRole A u tr := by
  simp only [diffNotices, List.mem_append, List.mem_flatMap, targetNotices, removalNotices]
  constructor
  · rintro (⟨⟨u2, tr⟩, hmem, hn⟩ | ⟨e, _, hn⟩)
    · simp only at hn
      split at hn
      · rename_i hnone
        simp only [List.mem_singleton, Notice.adding.injEq] at hn
        obtain ⟨rfl, rfl, rfl, rfl⟩ := hn
        exact ⟨rfl, rfl, tr, hmem, hnone, rfl⟩
      · split at hn <;> simp at hn
    · split at hn <;> simp at hn
  · rintro ⟨rfl, rfl, tr, hmem, hnone, rfl⟩
    exact Or.inl ⟨(u, tr), hmem, by simp [hnone]⟩

theorem mem_diffNotices_updating (org team : String) (A : List String)
    (E T : List (String × String)) (u o t e r : String) :
    Notice.updating u o t e r ∈ diffNotices org team A E T
      ↔ o = org ∧ t = team ∧ ∃ tr, (u, tr) ∈ T ∧ mapGet E u = some e ∧ e ≠ "" ∧ e ≠ r
          ∧ r = effectiveRole A u tr := by
  simp only [diffNotices, List.mem_append, List.mem_flatMap, targetNotices, removalNotices]
  constructor
  · rintro (⟨⟨u2, tr⟩, hmem, hn⟩ | ⟨e, _, hn⟩)
    · simp only at hn
      split at hn
      · simp at hn
      · rename_i e2 hsome
        split at hn
        · rename_i hc
          simp only [List.mem_singleton, Notice.updating.injEq] at hn
          obtain ⟨rfl, rfl, rfl, rfl, rfl⟩ := hn
          exact ⟨rfl, rfl, tr, hmem, hsome, hc.1, hc.2, rfl⟩
        · simp at hn
    · split at hn <;> simp at hn
  · rintro ⟨rfl, rfl, tr, hmem, hsome, h1, h2, rfl⟩
    exact Or.inl ⟨(u, tr), hmem, by simp [hsome, h1, h2]⟩

theorem mem_diffNotices_removing (org team : String) (A : List String)
    (E T : List (String × String)) (u o t : String) :
    Notice.removing u o t ∈ diffNotices org team A E T
      ↔ o = org ∧ t = team ∧ (∃ e, (u, e) ∈ E) ∧ mapGet T u = none := by
  simp only [diffNotices, List.mem_append, List.mem_flatMap, targetNotices, removalNotices]
  constructor
  · rintro (⟨⟨u2, tr⟩, hmem, hn⟩ | ⟨⟨u2, e⟩, hmem, hn⟩)
    · simp only at hn
      split at hn
      · simp at hn
      · split at hn <;> simp at hn
    · simp only at hn
      split at hn
      · simp at hn
      · rename_i hc
        simp only [List.mem_singleton, Notice.removing.injEq] at hn
        obtain ⟨rfl, rfl, rfl⟩ := hn
        refine ⟨rfl, rfl, ⟨e, hmem⟩, ?_⟩
        cases hg : mapGet T u with
        | none => rfl
        | some v => simp [hg] at hc
  · rintro ⟨rfl, rfl, ⟨e, hmem⟩, hnone⟩
    exact Or.inr ⟨(u, e), hmem, by simp [hnone]⟩

/-! ## Lemmas: the requests of one `Sync` -/

/-- The read requests that open a `Sync`. -/
theorem newCalls_sync (s : Syncer) (g : GitHub) (org team : String)
    (T : List (String × String)) (l : Listing) (h : s.list g org team = .ok l) :
    newCalls g (s.Sync g org team T).github
      = (if (s.cached org).isSome then [] else [Call.listMembers org "admin" 100])
        ++ [Call.listTeamMembersBySlug org team "member" 100,
            Call.listTeamMembersBySlug org team "maintainer" 100]
        ++ (if s.dryRun then []
            else (s.Sync g org team T).stdout.map Notice.toCall) := by
  obtain ⟨hs, hc, -⟩ := sync_of_list_ok s g org team T l h
  have hl := (list_ok s g org team l h).2.2.2.2.2.2.2.2
  have ho := (orgAdmins_reads s g org).2.2.2.1
  unfold newCalls
  rw [hc, hl, ho, hs]
  simp only [List.append_assoc]
  rw [List.drop_left]

theorem orgAdmins_dryRun (s : Syncer) (g : GitHub) (org : String) (b : Bool) :
    ({ s with dryRun := b } : Syncer).OrgAdmins g org
      = ((s.OrgAdmins g org).1, { (s.OrgAdmins g org).2.1 with dryRun := b },
          (s.OrgAdmins g org).2.2) := by
  obtain ⟨d, cache⟩ := s
  unfold Syncer.OrgAdmins Syncer.cached
  cases cache with
  | none =>
    simp only
    rcases g.ListMembers org "admin" 100 with ⟨r, g1⟩
    cases r <;> rfl
  | some c =>
    simp only
    cases hm : mapGet c org with
    | some v => rfl
    | none =>
      simp only
      rcases g.ListMembers org "admin" 100 with ⟨r, g1⟩
      cases r <;> rfl

theorem list_dryRun (s : Syncer) (g : GitHub) (org team : String) (l : Listing) (b : Bool)
    (h : s.list g org team = .ok l) :
    ({ s with dryRun := b } : Syncer).list g org team
      = .ok { l with syncer := { l.syncer with dryRun := b } } := by
  unfold Syncer.list at h ⊢
  rw [orgAdmins_dryRun]
  rcases ho : s.OrgAdmins g org with ⟨r, s1, g1⟩
  rw [ho] at h
  cases r with
  | error e => simp at h
  | ok A =>
    simp only at h ⊢
    rcases hm : g1.ListTeamMembersBySlug org team "member" 100 with ⟨r2, g2⟩
    rw [hm] at h
    cases r2 with
    | error e => simp at h
    | ok ms =>
      simp only at h ⊢
      rcases hmt : g2.ListTeamMembersBySlug org team "maintainer" 100 with ⟨r3, g3⟩
      rw [hmt] at h
      cases r3 with
      | error e => simp at h
      | ok mts =>
        simp only [Except.ok.injEq] at h ⊢
        subst h
        rfl

/-! ## The adjusted role -/

/-- The role the code works with is the adjusted role of the specification. -/
theorem effectiveRole_eq_adjustedRole (orgAdmins : List String) (user targetRole : String) :
    effectiveRole orgAdmins user targetRole = adjustedRole orgAdmins user targetRole := by
  unfold effectiveRole adjustedRole
  by_cases hu : user ∈ orgAdmins
  · by_cases hr : targetRole = "maintainer"
    · simp [hu, hr]
    · simp [hu, hr]
  · simp [hu]

/-! ## The add/update loop -/

/-- The add/update loop, relative to what `Sync` has listed.  Let `E` be the
existing memberships that `Sync` merged from its two listings (one page each)
and `A` the org admins it resolved.  The "adding" lines printed are exactly those
for a user `u` of the target that is absent from `E`, with the adjusted role of
the specification; the "updating" lines are exactly those for a user of the
target that `E` holds with a role different from the adjusted role; and, when it
is not a dry run, an add request is sent for `u` with role `r` exactly when `u`
is in the target, `r` is its adjusted role and `E` does not hold `u` with role
`r`. -/
theorem sync_upsert_classification (s : Syncer) (g : GitHub) (org team : String)
    (T : List (String × String)) (l : Listing)
    (hT : (T.map Prod.fst).Nodup) (h : s.list g org team = .ok l) :
    (∀ u o t r, Notice.adding u o t r ∈ (s.Sync g org team T).stdout ↔
        o = org ∧ t = team ∧ ∃ tr, mapGet T u = some tr
          ∧ mapGet (existingMemberships l.existingMembers l.existingMaintainers) u = none
          ∧ r = adjustedRole l.orgAdmins u tr)
    ∧ (∀ u o t e r, Notice.updating u o t e r ∈ (s.Sync g org team T).stdout ↔
        o = org ∧ t = team ∧ ∃ tr, mapGet T u = some tr
          ∧ mapGet (existingMemberships l.existingMembers l.existingMaintainers) u = some e
          ∧ e ≠ r ∧ r = adjustedRole l.orgAdmins u tr)
    ∧ (∀ o t u r, Call.addTeamMembershipBySlug o t u r ∈ newCalls g (s.Sync g org team T).github ↔
        s.dryRun = false ∧ o = org ∧ t = team ∧ ∃ tr, mapGet T u = some tr
          ∧ r = adjustedRole l.orgAdmins u tr
          ∧ mapGet (existingMemberships l.existingMembers l.existingMaintainers) u ≠ some r) := by
  simp only [← effectiveRole_eq_adjustedRole]
  have hs := (sync_of_list_ok s g org team T l h).1
  have hadd : ∀ u o t r, Notice.adding u o t r ∈ (s.Sync g org team T).stdout ↔
        o = org ∧ t = team ∧ ∃ tr, mapGet T u = some tr
          ∧ mapGet (existingMemberships l.existingMembers l.existingMaintainers) u = none
          ∧ r = effectiveRole l.orgAdmins u tr := by
    intro u o t r
    rw [hs, mem_diffNotices_adding]
    simp only [mapGet_of_mem T hT]
  have hupd : ∀ u o t e r, Notice.updating u o t e r ∈ (s.Sync g org team T).stdout ↔
        o = org ∧ t = team ∧ ∃ tr, mapGet T u = some tr
          ∧ mapGet (existingMemberships l.existingMembers l.existingMaintainers) u = some e
          ∧ e ≠ r ∧ r = effectiveRole l.orgAdmins u tr := by
    intro u o t e r
    rw [hs, mem_diffNotices_updating]
    simp only [mapGet_of_mem T hT]
    constructor
    · rintro ⟨ho, ht, tr, h1, h2, -, h4, h5⟩
      exact ⟨ho, ht, tr, h1, h2, h4, h5⟩
    · rintro ⟨ho, ht, tr, h1, h2, h4, h5⟩
      refine ⟨ho, ht, tr, h1, h2, ?_, h4, h5⟩
      rcases existingMemberships_role _ _ _ _ h2 with he | he <;> (rw [he]; decide)
  refine ⟨hadd, hupd, ?_⟩
  intro o t u r
  rw [newCalls_sync s g org team T l h]
  cases hd : s.dryRun
  · simp only [List.mem_append, List.mem_map, Bool.false_eq_true, if_false, true_and]
    constructor
    · rintro ((hm | hm) | ⟨n, hn, hc⟩)
      · split at hm <;> simp at hm
      · simp at hm
      · cases n with
        | adding u2 o2 t2 r2 =>
          simp only [Notice.toCall, Call.addTeamMembershipBySlug.injEq] at hc
          obtain ⟨rfl, rfl, rfl, rfl⟩ := hc
          obtain ⟨ho, ht, tr, h1, h2, h3⟩ := (hadd _ _ _ _).1 hn
          exact ⟨ho, ht, tr, h1, h3, by rw [h2]; simp⟩
        | updating u2 o2 t2 e2 r2 =>
          simp only [Notice.toCall, Call.addTeamMembershipBySlug.injEq] at hc
          obtain ⟨rfl, rfl, rfl, rfl⟩ := hc
          obtain ⟨ho, ht, tr, h1, h2, h3, h4⟩ := (hupd _ _ _ _ _).1 hn
          exact ⟨ho, ht, tr, h1, h4, by rw [h2]; simpa using h3⟩
        | removing u2 o2 t2 => simp [Notice.toCall] at hc
    · rintro ⟨ho, ht, tr, h1, h2, h3⟩
      right
      cases hE : mapGet (existingMemberships l.existingMembers l.existingMaintainers) u with
      | none =>
        exact ⟨Notice.adding u o t r, (hadd _ _ _ _).2 ⟨ho, ht, tr, h1, hE, h2⟩, rfl⟩
      | some e =>
        have hne : e ≠ r := by
          intro he; apply h3; rw [hE, he]
        exact ⟨Notice.updating u o t e r, (hupd _ _ _ _ _).2 ⟨ho, ht, tr, h1, hE, hne, h2⟩, rfl⟩
  · simp only [if_true, List.append_nil, List.mem_append, Bool.true_eq_false, false_and,
      iff_false, not_or]
    constructor
    · split <;> simp
    · simp

/-- An instance of the add/update loop with an org admin: dave is an org admin
and a plain member, and the target asks for dave as member; the line printed
updates dave to maintainer, the adjusted role, and carol is added as member. -/
theorem sync_upsert_classification_witness :
    (adminTarget.map Prod.fst).Nodup
      ∧ (NewSyncer false).list adminDirectory "abcxyz" "go-readability" = .ok adminListing
      ∧ Notice.updating "dave" "abcxyz" "go-readability" "member" "maintainer"
          ∈ ((NewSyncer false).Sync adminDirectory "abcxyz" "go-readability" adminTarget).stdout
      ∧ Notice.adding "carol" "abcxyz" "go-readability" "member"
          ∈ ((NewSyncer false).Sync adminDirectory "abcxyz" "go-readability" adminTarget).stdout :=
  ⟨by decide, rfl,
    ((sync_upsert_classification (NewSyncer false) adminDirectory "abcxyz" "go-readability"
        adminTarget adminListing (by decide) rfl).2.1 "dave" "abcxyz" "go-readability"
        "member" "maintainer").2
      ⟨rfl, rfl, "member", by decide, by decide, by decide, by decide⟩,
    ((sync_upsert_classification (NewSyncer false) adminDirectory "abcxyz" "go-readability"
        adminTarget adminListing (by decide) rfl).1 "carol" "abcxyz" "go-readability"
        "member").2
      ⟨rfl, rfl, "member", by decide, by decide, by decide⟩⟩

/-- C4 (admin override).  For a user `u` in the org-admin set that `OrgAdmins`
returned to `Sync`, every "adding" or "updating" line printed for `u` and every
add request sent for `u` carries the role "maintainer", whatever the target
asks for. -/
theorem sync_admin_override (s : Syncer) (g : GitHub) (org team : String)
    (T : List (String × String)) (l : Listing) (u : String)
    (h : s.list g org team = .ok l) (hu : u ∈ l.orgAdmins) :
    (s.OrgAdmins g org).1 = .ok l.orgAdmins
    ∧ (∀ o t r, Notice.adding u o t r ∈ (s.Sync g org team T).stdout → r = "maintainer")
    ∧ (∀ o t e r, Notice.updating u o t e r ∈ (s.Sync g org team T).stdout → r = "maintainer")
    ∧ (∀ o t r, Call.addTeamMembershipBySlug o t u r ∈ newCalls g (s.Sync g org team T).github →
        r = "maintainer") := by
  have hs := (sync_of_list_ok s g org team T l h).1
  have heff : ∀ tr, effectiveRole l.orgAdmins u tr = "maintainer" := by
    intro tr
    unfold effectiveRole
    by_cases htr : tr = "maintainer"
    · simp [htr]
    · simp [hu, htr]
  have hadd : ∀ o t r, Notice.adding u o t r ∈ (s.Sync g org team T).stdout →
      r = "maintainer" := by
    intro o t r hn
    rw [hs, mem_diffNotices_adding] at hn
    obtain ⟨-, -, tr, -, -, hr⟩ := hn
    rw [hr, heff]
  have hupd : ∀ o t e r, Notice.updating u o t e r ∈ (s.Sync g org team T).stdout →
      r = "maintainer" := by
    intro o t e r hn
    rw [hs, mem_diffNotices_updating] at hn
    obtain ⟨-, -, tr, -, -, -, -, hr⟩ := hn
    rw [hr, heff]
  refine ⟨(list_ok s g org team l h).1, hadd, hupd, ?_⟩
  intro o t r hc
  rw [newCalls_sync s g org team T l h] at hc
  simp only [List.mem_append] at hc
  rcases hc with (hm | hm) | hm
  · split at hm <;> simp at hm
  · simp at hm
  · split at hm
    · simp at hm
    · obtain ⟨n, hn, hc⟩ := List.mem_map.1 hm
      cases n with
      | adding u2 o2 t2 r2 =>
        simp only [Notice.toCall, Call.addTeamMembershipBySlug.injEq] at hc
        obtain ⟨rfl, rfl, rfl, rfl⟩ := hc
        exact hadd _ _ _ hn
      | updating u2 o2 t2 e2 r2 =>
        simp only [Notice.toCall, Call.addTeamMembershipBySlug.injEq] at hc
        obtain ⟨rfl, rfl, rfl, rfl⟩ := hc
        exact hupd _ _ _ _ hn
      | removing u2 o2 t2 => simp [Notice.toCall] at hc

/-- Witness of C4, the example of the specification: an empty team, the target
dave: member, and dave an org admin.  The one operation is adding dave as
maintainer. -/
theorem sync_admin_override_witness :
    (NewSyncer false).list daveDirectory "abcxyz" "go-readability" = .ok daveListing
      ∧ "dave" ∈ daveListing.orgAdmins
      ∧ (∀ o t r, Call.addTeamMembershipBySlug o t "dave" r
            ∈ newCalls daveDirectory ((NewSyncer false).Sync daveDirectory "abcxyz"
                "go-readability" [("dave", "member")]).github → r = "maintainer")
      ∧ ((NewSyncer false).Sync daveDirectory "abcxyz" "go-readability"
            [("dave", "member")]).stdout
          = [Notice.adding "dave" "abcxyz" "go-readability" "maintainer"]
      ∧ (newCalls daveDirectory ((NewSyncer false).Sync daveDirectory "abcxyz"
            "go-readability" [("dave", "member")]).github).filter Call.isMutation
          = [Call.addTeamMembershipBySlug "abcxyz" "go-readability" "dave" "maintainer"] :=
  ⟨rfl, by decide,
    (sync_admin_override (NewSyncer false) daveDirectory "abcxyz" "go-readability"
      [("dave", "member")] daveListing "dave" rfl (by decide)).2.2.2,
    by decide, by decide⟩

/-! ## Dry run -/

theorem toCall_isMutation (n : Notice) : n.toCall.isMutation = true := by
  cases n <;> rfl

theorem filter_isMutation_map_toCall (ns : List Notice) :
    (ns.map Notice.toCall).filter Call.isMutation = ns.map Notice.toCall := by
  rw [List.filter_eq_self]
  intro c hc
  obtain ⟨n, -, rfl⟩ := List.mem_map.1 hc
  exact toCall_isMutation n

/-- C6 (dry-run no-op).  With `dryRun` set, whatever the target, the directory
and the fault schedule, `Sync` sends no add and no remove request, and every
roster of the directory is afterwards what it was before. -/
theorem sync_dry_run_noop (s : Syncer) (g : GitHub) (org team : String)
    (T : List (String × String)) (hd : s.dryRun = true) :
    (s.Sync g org team T).github.teams = g.teams
      ∧ ∀ c ∈ newCalls g (s.Sync g org team T).github, c.isMutation = false := by
  cases h : s.list g org team with
  | error r =>
    obtain ⟨-, -, -, -, ht, -, reads, hc, hr⟩ := list_error s g org team r h
    have hS : s.Sync g org team T = r := by simp [Syncer.Sync, h]
    rw [hS]
    refine ⟨ht, ?_⟩
    unfold newCalls
    rw [hc, List.drop_left]
    exact hr
  | ok l =>
    have hl := list_ok s g org team l h
    have hdl : l.syncer.dryRun = true := by rw [hl.2.2.1, hd]
    constructor
    · have hg : (s.Sync g org team T).github = l.github := by
        simp only [Syncer.Sync, h]
        exact (reconcile_dry l.syncer l.github org team _ _ _ T hdl).1
      rw [hg]
      exact hl.2.2.2.2.2.2.1
    · rw [newCalls_sync s g org team T l h, hd]
      intro c hc
      simp only [if_true, List.append_nil, List.mem_append] at hc
      rcases hc with hc | hc
      · split at hc
        · simp at hc
        · simp only [List.mem_singleton] at hc
          subst hc; rfl
      · simp only [List.mem_cons, List.mem_singleton, List.not_mem_nil, or_false] at hc
        rcases hc with hc | hc <;> (subst hc; rfl)

/-- Witness of C6: a dry run of the worked example leaves alice a member and bob
a maintainer. -/
theorem sync_dry_run_noop_witness :
    (NewSyncer true).dryRun = true
      ∧ ((NewSyncer true).Sync smallDirectory "abcxyz" "go-readability" smallTarget).github.teams
          = smallDirectory.teams
      ∧ ((NewSyncer true).Sync smallDirectory "abcxyz" "go-readability" smallTarget).github.teams
          "abcxyz" "go-readability" = [("alice", "member"), ("bob", "maintainer")] :=
  ⟨rfl,
    (sync_dry_run_noop (NewSyncer true) smallDirectory "abcxyz" "go-readability" smallTarget
      rfl).1,
    by decide⟩

/-- C7 (a dry run reports the intended changes).  When the three reads of
`Sync` succeed, the progress lines printed with `dryRun` set are the lines
printed with `dryRun` cleared; with `dryRun` cleared the add and remove requests
sent are, in order, one for each line printed, under every fault schedule, so an
operation is reported whether or not its request succeeds; with `dryRun` set no
such request is sent. -/
theorem sync_dry_run_reports (s : Syncer) (g : GitHub) (org team : String)
    (T : List (String × String)) (l : Listing) (h : s.list g org team = .ok l) :
    (({ s with dryRun := true } : Syncer).Sync g org team T).stdout
        = (({ s with dryRun := false } : Syncer).Sync g org team T).stdout
      ∧ (newCalls g (({ s with dryRun := false } : Syncer).Sync g org team T).github).filter
            Call.isMutation
          = (({ s with dryRun := false } : Syncer).Sync g org team T).stdout.map Notice.toCall
      ∧ (newCalls g (({ s with dryRun := true } : Syncer).Sync g org team T).github).filter
            Call.isMutation = [] := by
  have hdry := list_dryRun s g org team l true h
  have hwet := list_dryRun s g org team l false h
  have hr1 : ∀ (c : Prop) [Decidable c], List.filter Call.isMutation
      (if c then [] else [Call.listMembers org "admin" 100]) = [] := by
    intro c _
    split <;> rfl
  have hr2 : List.filter Call.isMutation [Call.listTeamMembersBySlug org team "member" 100,
      Call.listTeamMembersBySlug org team "maintainer" 100] = [] := rfl
  refine ⟨?_, ?_, ?_⟩
  · rw [(sync_of_list_ok _ g org team T _ hdry).1, (sync_of_list_ok _ g org team T _ hwet).1]
  · rw [newCalls_sync _ g org team T _ hwet]
    simp only [Bool.false_eq_true, if_false, List.filter_append, filter_isMutation_map_toCall,
      hr1, hr2, List.nil_append]
  · rw [newCalls_sync _ g org team T _ hdry]
    simp only [if_true, List.append_nil, List.filter_append, hr1, hr2]

/-- Witness of C7 on the worked example: a dry run and a real run both report
the update of alice, the addition of carol and the removal of bob. -/
theorem sync_dry_run_reports_witness :
    (NewSyncer false).list smallDirectory "abcxyz" "go-readability" = .ok (smallListing false)
      ∧ (({ NewSyncer false with dryRun := true } : Syncer).Sync smallDirectory "abcxyz"
            "go-readability" smallTarget).stdout
          = (({ NewSyncer false with dryRun := false } : Syncer).Sync smallDirectory "abcxyz"
            "go-readability" smallTarget).stdout
      ∧ (({ NewSyncer false with dryRun := true } : Syncer).Sync smallDirectory "abcxyz"
            "go-readability" smallTarget).stdout
          = [Notice.updating "alice" "abcxyz" "go-readability" "member" "maintainer",
             Notice.adding "carol" "abcxyz" "go-readability" "member",
             Notice.removing "bob" "abcxyz" "go-readability"] :=
  ⟨rfl,
    (sync_dry_run_reports (NewSyncer false) smallDirectory "abcxyz" "go-readability" smallTarget
      (smallListing false) rfl).1,
    by decide⟩

/-! ## Listings beyond the first page -/

set_option maxRecDepth 100000 in
/-- C1 at a failing input.  The team has 101 members "u0" to "u100" and the
target is alice alone.  `Sync` returns no error, yet "u100", which the first page
of 100 members does not show, is still a member afterwards. -/
theorem sync_big_team_not_converged :
    bigTeamFirstSync.err = []
      ∧ bigTeamFirstSync.github.teams "abcxyz" "go-readability"
          = [("u100", "member"), ("alice", "maintainer")]
      ∧ mapGet aliceTarget "u100" = none := by
  decide!

set_option maxRecDepth 100000 in
/-- C2 at a failing input.  Both runs of `Sync` on the team of 101 members
return no error, with the same target and the same cached org admins, and the
second run still sends a request: it removes "u100", which the first run never
saw. -/
theorem sync_big_team_second_run :
    bigTeamFirstSync.err = [] ∧ bigTeamSecondSync.err = []
      ∧ bigTeamSecondSync.stdout = [Notice.removing "u100" "abcxyz" "go-readability"]
      ∧ (newCalls bigTeamFirstSync.github bigTeamSecondSync.github).filter Call.isMutation
          = [Call.removeTeamMembershipBySlug "abcxyz" "go-readability" "u100"] := by
  decide!

set_option maxRecDepth 100000 in
/-- C5 at a failing input.  "u100" is a member of the team and is not a key of
the target, and `Sync` neither prints a removal of "u100" nor sends a remove
request for it. -/
theorem sync_big_team_not_removed :
    ("u100", "member") ∈ bigTeam.teams "abcxyz" "go-readability"
      ∧ mapGet aliceTarget "u100" = none
      ∧ Notice.removing "u100" "abcxyz" "go-readability" ∉ bigTeamFirstSync.stdout
      ∧ Call.removeTeamMembershipBySlug "abcxyz" "go-readability" "u100"
          ∉ bigTeamFirstSync.github.calls := by
  decide!

/-! ## The org admin cache -/

set_option maxRecDepth 100000 in
/-- C9 at a failing input.  The organisation has 101 admins, none of them
ignored.  On a cache miss whose fetch succeeds `OrgAdmins` returns and stores the
first 100 only: "u100" is an admin, is not ignored, and is not in the result. -/
theorem orgAdmins_big_org_first_page :
    "u100" ∈ bigOrg.admins "abcxyz" ∧ "u100" ∉ ignoredOrgAdmins
      ∧ ((NewSyncer false).OrgAdmins bigOrg "abcxyz").1.toOption = some (logins 100)
      ∧ ((NewSyncer false).OrgAdmins bigOrg "abcxyz").2.1.cached "abcxyz" = some (logins 100)
      ∧ "u100" ∉ logins 100 := by
  decide!

theorem orgAdmins_hit (s : Syncer) (g : GitHub) (org : String) (v : List String)
    (h : s.cached org = some v) : s.OrgAdmins g org = (.ok v, s, g) := by
  simp [Syncer.OrgAdmins, h]

theorem orgAdmins_miss_fail (s : Syncer) (g : GitHub) (org : String)
    (h : s.cached org = none) (hf : g.faults g.calls.length = true) :
    s.OrgAdmins g org
      = (.error ("failed to get org admins for " ++ org ++ ": " ++ requestFailed), s,
          { g with calls := g.calls ++ [Call.listMembers org "admin" 100] }) := by
  simp [Syncer.OrgAdmins, h, GitHub.ListMembers, hf]

theorem orgAdmins_miss_ok (s : Syncer) (g : GitHub) (org : String)
    (h : s.cached org = none) (hf : g.faults g.calls.length = false) :
    (s.OrgAdmins g org).1 = .ok (collectOrgAdmins ((g.admins org).take 100))
      ∧ (s.OrgAdmins g org).2.1.cached org = some (collectOrgAdmins ((g.admins org).take 100))
      ∧ (s.OrgAdmins g org).2.1.dryRun = s.dryRun
      ∧ (s.OrgAdmins g org).2.2
          = { g with calls := g.calls ++ [Call.listMembers org "admin" 100] } := by
  simp only [Syncer.OrgAdmins, h]
  simp [GitHub.ListMembers, hf, Syncer.cached, mapGet_mapSet]

theorem mem_collectOrgAdmins (l : List String) (u : String) :
    u ∈ collectOrgAdmins l ↔ u ∈ l ∧ u ∉ ignoredOrgAdmins := by
  have key : ∀ (l m : List String),
      u ∈ l.foldl (fun m login => if login ∈ ignoredOrgAdmins then m else setInsert m login) m
        ↔ u ∈ m ∨ (u ∈ l ∧ u ∉ ignoredOrgAdmins) := by
    intro l
    induction l with
    | nil => intro m; simp
    | cons x l ih =>
      intro m
      simp only [List.foldl_cons, ih, List.mem_cons]
      by_cases hx : x ∈ ignoredOrgAdmins
      · simp only [hx, if_true]
        constructor
        · rintro (h | ⟨h1, h2⟩)
          · exact Or.inl h
          · exact Or.inr ⟨Or.inr h1, h2⟩
        · rintro (h | ⟨h1 | h1, h2⟩)
          · exact Or.inl h
          · subst h1; exact absurd hx h2
          · exact Or.inr ⟨h1, h2⟩
      · simp only [hx, if_false]
        have hins : u ∈ setInsert m x ↔ u ∈ m ∨ u = x := by
          unfold setInsert
          split
          · constructor
            · exact Or.inl
            · rintro (h | h)
              · exact h
              · subst h; assumption
          · simp
        rw [hins]
        constructor
        · rintro ((h | h) | ⟨h1, h2⟩)
          · exact Or.inl h
          · subst h; exact Or.inr ⟨Or.inl rfl, hx⟩
          · exact Or.inr ⟨Or.inr h1, h2⟩
        · rintro (h | ⟨h1 | h1, h2⟩)
          · exact Or.inl (Or.inl h)
          · exact Or.inl (Or.inr h1)
          · exact Or.inr ⟨h1, h2⟩
  unfold collectOrgAdmins
  rw [key]
  simp

theorem list_error_calls (s : Syncer) (g : GitHub) (org team : String) (r : SyncResult)
    (h : s.list g org team = .error r) :
    r.syncer = (s.OrgAdmins g org).2.1
      ∧ ∃ reads, r.github.calls = (s.OrgAdmins g org).2.2.calls ++ reads
          ∧ ∀ o, reads.count (Call.listMembers o "admin" 100) = 0 := by
  unfold Syncer.list at h
  rcases ho : s.OrgAdmins g org with ⟨r1, s1, g1⟩
  rw [ho] at h
  cases r1 with
  | error e =>
    simp only [Except.error.injEq] at h
    subst h
    exact ⟨rfl, [], by simp, by simp⟩
  | ok A =>
    simp only at h
    have h2 := listTeam_snd g1 org team "member" 100
    rcases hm : g1.ListTeamMembersBySlug org team "member" 100 with ⟨r2, g2⟩
    rw [hm] at h h2
    simp only at h2
    cases r2 with
    | error e =>
      simp only [Except.error.injEq] at h
      subst h
      subst h2
      exact ⟨rfl, [Call.listTeamMembersBySlug org team "member" 100], rfl, by simp⟩
    | ok ms =>
      simp only at h
      have h3 := listTeam_snd g2 org team "maintainer" 100
      rcases hmt : g2.ListTeamMembersBySlug org team "maintainer" 100 with ⟨r3, g3⟩
      rw [hmt] at h h3
      simp only at h3
      cases r3 with
      | error e =>
        simp only [Except.error.injEq] at h
        subst h
        subst h3
        subst h2
        exact ⟨rfl, [Call.listTeamMembersBySlug org team "member" 100,
          Call.listTeamMembersBySlug org team "maintainer" 100], by simp, by simp⟩
      | ok mts => simp at h

theorem count_listMembers_map_toCall (ns : List Notice) (o : String) :
    (ns.map Notice.toCall).count (Call.listMembers o "admin" 100) = 0 := by
  rw [List.count_eq_zero]
  intro hc
  obtain ⟨n, -, hn⟩ := List.mem_map.1 hc
  cases n <;> simp [Notice.toCall] at hn

/-- A `Sync` fetches the org admins only through its call of `OrgAdmins`, and
hands the syncer on as `OrgAdmins` left it. -/
theorem sync_after_orgAdmins (s : Syncer) (g : GitHub) (org team : String)
    (T : List (String × String)) :
    (s.Sync g org team T).syncer = (s.OrgAdmins g org).2.1
      ∧ fetches (s.Sync g org team T).github org = fetches (s.OrgAdmins g org).2.2 org := by
  unfold fetches
  cases h : s.list g org team with
  | error r =>
    obtain ⟨hs, reads, hc, hr⟩ := list_error_calls s g org team r h
    have hS : s.Sync g org team T = r := by simp [Syncer.Sync, h]
    rw [hS, hc, List.count_append, hr]
    exact ⟨hs, rfl⟩
  | ok l =>
    obtain ⟨-, hc, hs⟩ := sync_of_list_ok s g org team T l h
    have hl := list_ok s g org team l h
    rw [hs, hc, hl.2.2.2.2.2.2.2.2]
    refine ⟨hl.2.1, ?_⟩
    simp only [List.count_append]
    have h0 : List.count (Call.listMembers org "admin" 100)
        [Call.listTeamMembersBySlug org team "member" 100,
          Call.listTeamMembersBySlug org team "maintainer" 100] = 0 := by
      simp
    rw [h0]
    split
    · simp
    · rw [count_listMembers_map_toCall]
      rfl

/-- Once the org admins of `org` are cached, no sequence of calls fetches them
again or changes the entry. -/
theorem run_hit (org : String) (v : List String) (reqs : List Request) :
    ∀ (s : Syncer) (g : GitHub), s.cached org = some v →
      (s.run g org reqs).1.cached org = some v
        ∧ fetches (s.run g org reqs).2 org = fetches g org := by
  induction reqs with
  | nil => intro s g h; exact ⟨h, rfl⟩
  | cons r rest ih =>
    intro s g h
    have ho := orgAdmins_hit s g org v h
    cases r with
    | sync team T =>
      obtain ⟨hs, hf⟩ := sync_after_orgAdmins s g org team T
      rw [ho] at hs hf
      simp only at hs hf
      simp only [Syncer.run]
      obtain ⟨h1, h2⟩ := ih (s.Sync g org team T).syncer (s.Sync g org team T).github
        (by rw [hs]; exact h)
      exact ⟨h1, by rw [h2, hf]⟩
    | orgAdmins =>
      simp only [Syncer.run, ho]
      exact ih s g h

/-- C8 (cache single-fetch), amended.  Take any non-empty sequence of `Sync`
and `OrgAdmins` calls made one after the other on one syncer for the same
organisation, starting without a cache entry for it.  If the fetch of the
first call succeeds, the org admins of that organisation are fetched exactly
once over the whole sequence, the cache holds the set stored by the first call,
and a further `OrgAdmins` call returns that set and changes neither the syncer
nor the client (it sends no request). -/
theorem orgAdmins_single_fetch (s : Syncer) (g : GitHub) (org : String) (reqs : List Request)
    (hne : reqs ≠ []) (hmiss : s.cached org = none)
    (hok : g.faults g.calls.length = false) :
    fetches (s.run g org reqs).2 org = fetches g org + 1
      ∧ (s.run g org reqs).1.cached org = some (collectOrgAdmins ((g.admins org).take 100))
      ∧ (s.run g org reqs).1.OrgAdmins (s.run g org reqs).2 org
          = (.ok (collectOrgAdmins ((g.admins org).take 100)), (s.run g org reqs).1,
              (s.run g org reqs).2) := by
  obtain ⟨-, hc, -, hg⟩ := orgAdmins_miss_ok s g org hmiss hok
  have hf1 : fetches (s.OrgAdmins g org).2.2 org = fetches g org + 1 := by
    rw [hg]
    simp [fetches, List.count_append]
  cases reqs with
  | nil => exact absurd rfl hne
  | cons r rest =>
    have key : fetches (s.run g org (r :: rest)).2 org = fetches g org + 1
        ∧ (s.run g org (r :: rest)).1.cached org
            = some (collectOrgAdmins ((g.admins org).take 100)) := by
      cases r with
      | sync team T =>
        obtain ⟨hs, hf⟩ := sync_after_orgAdmins s g org team T
        simp only [Syncer.run]
        obtain ⟨h1, h2⟩ := run_hit org _ rest (s.Sync g org team T).syncer
          (s.Sync g org team T).github (by rw [hs]; exact hc)
        exact ⟨by rw [h2, hf, hf1], h1⟩
      | orgAdmins =>
        simp only [Syncer.run]
        obtain ⟨h1, h2⟩ := run_hit org _ rest (s.OrgAdmins g org).2.1 (s.OrgAdmins g org).2.2 hc
        exact ⟨by rw [h2, hf1], h1⟩
    exact ⟨key.1, key.2, orgAdmins_hit _ _ org _ key.2⟩

/-- Witness of C8 amended: a `Sync` of one team, an `OrgAdmins` and a `Sync` of a
second team, on a new syncer. -/
theorem orgAdmins_single_fetch_witness :
    [Request.sync "go-readability" [("dave", "member")], Request.orgAdmins,
        Request.sync "go-readability-approvers" []] ≠ []
      ∧ (NewSyncer false).cached "abcxyz" = none
      ∧ daveDirectory.faults daveDirectory.calls.length = false
      ∧ fetches ((NewSyncer false).run daveDirectory "abcxyz"
          [Request.sync "go-readability" [("dave", "member")], Request.orgAdmins,
            Request.sync "go-readability-approvers" []]).2 "abcxyz"
          = fetches daveDirectory "abcxyz" + 1 :=
  ⟨by simp, rfl, rfl,
    (orgAdmins_single_fetch (NewSyncer false) daveDirectory "abcxyz"
      [Request.sync "go-readability" [("dave", "member")], Request.orgAdmins,
        Request.sync "go-readability-approvers" []] (by simp) rfl rfl).1⟩

/-- C8 as stated fails: when the first fetch fails, two `OrgAdmins` calls in a
row on a new syncer fetch the org admins twice, and the second call is not a
cache hit. -/
theorem orgAdmins_fetched_twice :
    fetches ((NewSyncer false).run flakyDirectory "abcxyz"
        [Request.orgAdmins, Request.orgAdmins]).2 "abcxyz" = 2
      ∧ ((NewSyncer false).run flakyDirectory "abcxyz" [Request.orgAdmins]).1.cached "abcxyz"
          = none := by
  decide

/-- C10 (cache fetch failure).  On a cache miss whose fetch fails, `OrgAdmins`
returns an error and leaves the syncer, hence the cache, as it was: there is
still no entry for the organisation.  The next `OrgAdmins` call for the
organisation therefore fetches again: after it the log shows two fetches more
than at the start. -/
theorem orgAdmins_fetch_failure (s : Syncer) (g : GitHub) (org : String)
    (hmiss : s.cached org = none) (hfail : g.faults g.calls.length = true) :
    (s.OrgAdmins g org).1
        = .error ("failed to get org admins for " ++ org ++ ": " ++ requestFailed)
      ∧ (s.OrgAdmins g org).2.1 = s
      ∧ (s.OrgAdmins g org).2.1.cached org = none
      ∧ fetches ((s.OrgAdmins g org).2.1.OrgAdmins (s.OrgAdmins g org).2.2 org).2.2 org
          = fetches g org + 2 := by
  have h1 := orgAdmins_miss_fail s g org hmiss hfail
  rw [h1]
  refine ⟨rfl, rfl, hmiss, ?_⟩
  simp only
  have h2 := (orgAdmins_reads s { g with calls := g.calls ++ [Call.listMembers org "admin" 100] }
    org).2.2.2.1
  unfold fetches
  rw [h2, hmiss]
  simp [List.count_append]

/-- Witness of C10: the first request of `flakyDirectory` fails. -/
theorem orgAdmins_fetch_failure_witness :
    (NewSyncer false).cached "abcxyz" = none
      ∧ flakyDirectory.faults flakyDirectory.calls.length = true
      ∧ ((NewSyncer false).OrgAdmins flakyDirectory "abcxyz").2.1 = NewSyncer false
      ∧ ((NewSyncer false).OrgAdmins flakyDirectory "abcxyz").1.toOption = none :=
  ⟨rfl, rfl,
    (orgAdmins_fetch_failure (NewSyncer false) flakyDirectory "abcxyz" rfl rfl).2.1,
    by decide⟩

/-! ## Errors -/

theorem list_error_of_read_failure (s : Syncer) (g : GitHub) (org team : String)
    (h : (∃ e, (s.OrgAdmins g org).1 = .error e)
      ∨ (∃ e, ((s.OrgAdmins g org).2.2.ListTeamMembersBySlug org team "member" 100).1
          = .error e)
      ∨ (∃ e, (((s.OrgAdmins g org).2.2.ListTeamMembersBySlug org team "member" 100).2
          |>.ListTeamMembersBySlug org team "maintainer" 100).1 = .error e)) :
    ∃ r, s.list g org team = .error r := by
  unfold Syncer.list
  rcases ho : s.OrgAdmins g org with ⟨r1, s1, g1⟩
  rw [ho] at h
  simp only at h
  cases r1 with
  | error e => exact ⟨_, rfl⟩
  | ok A =>
    simp only
    rcases hm : g1.ListTeamMembersBySlug org team "member" 100 with ⟨r2, g2⟩
    rw [hm] at h
    simp only at h
    cases r2 with
    | error e => exact ⟨_, rfl⟩
    | ok ms =>
      simp only
      rcases hmt : g2.ListTeamMembersBySlug org team "maintainer" 100 with ⟨r3, g3⟩
      rw [hmt] at h
      simp only at h
      cases r3 with
      | error e => exact ⟨_, rfl⟩
      | ok mts => simp at h

/-- C11 (fatal-to-group errors).  If resolving the org admins fails, or listing
the members fails, or listing the maintainers fails, then `Sync` returns an
error, prints no add, update or remove line, sends no add or remove request,
and leaves every roster of the directory as it was. -/
theorem sync_fatal_errors (s : Syncer) (g : GitHub) (org team : String)
    (T : List (String × String))
    (h : (∃ e, (s.OrgAdmins g org).1 = .error e)
      ∨ (∃ e, ((s.OrgAdmins g org).2.2.ListTeamMembersBySlug org team "member" 100).1
          = .error e)
      ∨ (∃ e, (((s.OrgAdmins g org).2.2.ListTeamMembersBySlug org team "member" 100).2
          |>.ListTeamMembersBySlug org team "maintainer" 100).1 = .error e)) :
    (s.Sync g org team T).err ≠ []
      ∧ (s.Sync g org team T).stdout = []
      ∧ (s.Sync g org team T).github.teams = g.teams
      ∧ ∀ c ∈ newCalls g (s.Sync g org team T).github, c.isMutation = false := by
  obtain ⟨r, hr⟩ := list_error_of_read_failure s g org team h
  obtain ⟨hout, herr, -, -, ht, -, reads, hc, hreads⟩ := list_error s g org team r hr
  have hS : s.Sync g org team T = r := by simp [Syncer.Sync, hr]
  rw [hS]
  refine ⟨herr, hout, ht, ?_⟩
  unfold newCalls
  rw [hc, List.drop_left]
  exact hreads

/-- Witness of C11: the fetch of the org admins fails. -/
theorem sync_fatal_errors_witness :
    (∃ e, ((NewSyncer false).OrgAdmins flakyDirectory "abcxyz").1 = .error e)
      ∧ ((NewSyncer false).Sync flakyDirectory "abcxyz" "go-readability"
          [("dave", "member")]).stdout = []
      ∧ ((NewSyncer false).Sync flakyDirectory "abcxyz" "go-readability"
          [("dave", "member")]).err
          = ["failed to get org admins for abcxyz: request failed"] :=
  ⟨⟨_, rfl⟩,
    (sync_fatal_errors (NewSyncer false) flakyDirectory "abcxyz" "go-readability"
      [("dave", "member")] (Or.inl ⟨_, rfl⟩)).2.1,
    by decide⟩

theorem failures_append (faults : Nat → Bool) (n : Nat) (as bs : List Notice) :
    failures faults n (as ++ bs) = failures faults n as ++ failures faults (n + as.length) bs := by
  induction as generalizing n with
  | nil => simp [failures]
  | cons a as ih =>
    have h := ih (n + 1)
    rw [show n + 1 + as.length = n + (as.length + 1) by omega] at h
    simp only [List.cons_append, failures, List.length_cons, List.append_assoc]
    exact congrArg _ h

theorem failures_eq_enumFrom (faults : Nat → Bool) (n : Nat) (lines : List Notice) :
    failures faults n lines
      = ((lines.enumFrom n).filter (fun p => faults p.1)).map (fun p => p.2.failure) := by
  induction lines generalizing n with
  | nil => rfl
  | cons a as ih =>
    simp only [failures, List.enumFrom_cons, ih, List.filter_cons]
    cases faults n <;> simp

theorem failures_eq_nil (faults : Nat → Bool) (n : Nat) (lines : List Notice) :
    failures faults n lines = [] ↔ ∀ i, i < lines.length → faults (n + i) = false := by
  induction lines generalizing n with
  | nil => simp [failures]
  | cons a as ih =>
    simp only [failures, List.append_eq_nil, ih, List.length_cons]
    constructor
    · rintro ⟨h1, h2⟩ i hi
      cases i with
      | zero =>
        cases hf : faults n
        · simpa using hf
        · simp [hf] at h1
      | succ i =>
        have := h2 i (by omega)
        rw [show n + (i + 1) = n + 1 + i by omega]
        exact this
    · intro h
      constructor
      · have := h 0 (by omega)
        simp only [Nat.add_zero] at this
        simp [this]
      · intro i hi
        have := h (i + 1) (by omega)
        rw [show n + (i + 1) = n + 1 + i by omega] at this
        exact this

theorem addMembership_faults (s : Syncer) (org team user r : String) (line : Notice)
    (p : Progress) :
    (s.addMembership org team user r line p).github.faults = p.github.faults := by
  unfold Syncer.addMembership
  cases hd : s.dryRun
  · have hf := add_faults p.github org team user r
    rcases h : p.github.AddTeamMembershipBySlug org team user r with ⟨e, g1⟩
    rw [h] at hf
    cases e <;> simpa using hf
  · simp

theorem addMembership_merr (s : Syncer) (org team user r : String) (line : Notice)
    (p : Progress) (hd : s.dryRun = false) :
    (s.addMembership org team user r line p).merr
      = p.merr ++ (if p.github.faults p.github.calls.length then
          ["failed to add " ++ user ++ " to " ++ org ++ "/" ++ team ++ ": " ++ requestFailed]
          else []) := by
  unfold Syncer.addMembership
  cases hf : p.github.faults p.github.calls.length <;>
    simp [hd, GitHub.AddTeamMembershipBySlug, hf, errorsJoin]

theorem syncTarget_faults (s : Syncer) (org team : String) (orgAdmins : List String)
    (existing : List (String × String)) (p : Progress) (entry : String × String) :
    (s.syncTarget org team orgAdmins existing p entry).github.faults = p.github.faults := by
  simp only [Syncer.syncTarget]
  split <;> split <;> simp [addMembership_faults]

theorem syncTarget_merr (s : Syncer) (org team : String) (orgAdmins : List String)
    (existing : List (String × String)) (p : Progress) (entry : String × String)
    (hd : s.dryRun = false) :
    (s.syncTarget org team orgAdmins existing p entry).merr
      = p.merr ++ failures p.github.faults p.github.calls.length
          (targetNotices org team orgAdmins existing entry) := by
  cases h : mapGet existing entry.1 with
  | none =>
    simp [Syncer.syncTarget, targetNotices, h, addMembership_merr, hd, failures,
      Notice.failure]
  | some e =>
    by_cases hc : e ≠ "" ∧ e ≠ effectiveRole orgAdmins entry.1 entry.2
    · simp only [Syncer.syncTarget, targetNotices, h, Option.isSome_some, Option.getD_some,
        Bool.not_true, if_pos hc]
      simp [addMembership_merr, hd, failures, Notice.failure]
    · simp only [Syncer.syncTarget, targetNotices, h, Option.isSome_some, Option.getD_some,
        Bool.not_true, if_neg hc]
      simp [failures]

theorem syncExisting_faults (s : Syncer) (org team : String)
    (T : List (String × String)) (p : Progress) (entry : String × String) :
    (s.syncExisting org team T p entry).github.faults = p.github.faults := by
  simp only [Syncer.syncExisting]
  split
  · rfl
  · cases hd : s.dryRun
    · have hf := remove_faults p.github org team entry.1
      rcases h : p.github.RemoveTeamMembershipBySlug org team entry.1 with ⟨e, g1⟩
      rw [h] at hf
      cases e <;> simpa using hf
    · simp

theorem syncExisting_merr (s : Syncer) (org team : String)
    (T : List (String × String)) (p : Progress) (entry : String × String)
    (hd : s.dryRun = false) :
    (s.syncExisting org team T p entry).merr
      = p.merr ++ failures p.github.faults p.github.calls.length
          (removalNotices org team T entry) := by
  by_cases hc : (mapGet T entry.1).isSome = true
  · simp [Syncer.syncExisting, removalNotices, hc, failures]
  · cases hf : p.github.faults p.github.calls.length <;>
      simp [Syncer.syncExisting, removalNotices, hc, hd, GitHub.RemoveTeamMembershipBySlug, hf,
        errorsJoin, failures, Notice.failure]

theorem foldl_syncTarget_faults (s : Syncer) (org team : String) (orgAdmins : List String)
    (existing : List (String × String)) (T : List (String × String)) (p : Progress) :
    (T.foldl (s.syncTarget org team orgAdmins existing) p).github.faults = p.github.faults := by
  induction T generalizing p with
  | nil => rfl
  | cons e T ih => simp [ih, syncTarget_faults]

theorem foldl_syncTarget_merr (s : Syncer) (org team : String) (orgAdmins : List String)
    (existing : List (String × String)) (T : List (String × String)) (p : Progress)
    (hd : s.dryRun = false) :
    (T.foldl (s.syncTarget org team orgAdmins existing) p).merr
      = p.merr ++ failures p.github.faults p.github.calls.length
          (T.flatMap (targetNotices org team orgAdmins existing)) := by
  induction T generalizing p with
  | nil => simp [failures]
  | cons e T ih =>
    simp only [List.foldl_cons, ih, syncTarget_merr _ _ _ _ _ _ _ hd, syncTarget_faults,
      syncTarget_calls, hd, List.flatMap_cons, failures_append, List.length_append,
      List.length_map, List.append_assoc, Bool.false_eq_true, if_false]

theorem foldl_syncExisting_faults (s : Syncer) (org team : String)
    (T : List (String × String)) (E : List (String × String)) (p : Progress) :
    (E.foldl (s.syncExisting org team T) p).github.faults = p.github.faults := by
  induction E generalizing p with
  | nil => rfl
  | cons e E ih => simp [ih, syncExisting_faults]

theorem foldl_syncExisting_merr (s : Syncer) (org team : String)
    (T : List (String × String)) (E : List (String × String)) (p : Progress)
    (hd : s.dryRun = false) :
    (E.foldl (s.syncExisting org team T) p).merr
      = p.merr ++ failures p.github.faults p.github.calls.length
          (E.flatMap (removalNotices org team T)) := by
  induction E generalizing p with
  | nil => simp [failures]
  | cons e E ih =>
    simp only [List.foldl_cons, ih, syncExisting_merr _ _ _ _ _ _ hd, syncExisting_faults,
      syncExisting_calls, hd, List.flatMap_cons, failures_append, List.length_append,
      List.length_map, List.append_assoc, Bool.false_eq_true, if_false]

theorem reconcile_merr (s : Syncer) (g : GitHub) (org team : String) (A ms mts : List String)
    (T : List (String × String)) (hd : s.dryRun = false) :
    (s.reconcile g org team A ms mts T).merr
      = failures g.faults g.calls.length
          (diffNotices org team A (existingMemberships ms mts) T) := by
  simp only [Syncer.reconcile, diffNotices, foldl_syncExisting_merr _ _ _ _ _ _ hd,
    foldl_syncTarget_merr _ _ _ _ _ _ _ hd, foldl_syncTarget_faults, foldl_syncTarget_calls, hd,
    failures_append, List.length_append, List.length_map, List.nil_append, Bool.false_eq_true,
    if_false]

theorem sync_err_of_list_ok (s : Syncer) (g : GitHub) (org team : String)
    (T : List (String × String)) (l : Listing) (h : s.list g org team = .ok l) :
    (s.Sync g org team T).err
      = if s.dryRun then []
        else failures g.faults l.github.calls.length (s.Sync g org team T).stdout := by
  have hl := list_ok s g org team l h
  have hd := hl.2.2.1
  have hf := hl.2.2.2.2.2.2.2.1
  rw [(sync_of_list_ok s g org team T l h).1]
  cases hdry : s.dryRun
  · rw [hdry] at hd
    simp only [Syncer.Sync, h, reconcile_merr _ _ _ _ _ _ _ _ hd, hf, Bool.false_eq_true,
      if_false]
  · rw [hdry] at hd
    simp only [Syncer.Sync, h, if_true]
    exact (reconcile_dry l.syncer l.github org team _ _ _ T hd).2

/-- C13 (aggregate error exactness).  When the three reads of `Sync` succeed
and it is not a dry run, the requests sent after them are one per printed line,
in order, so the request of line number `i` is request number
`l.github.calls.length + i` of the client; the returned error joins, in order,
exactly one message for each line whose request failed and nothing else; and
it is nil exactly when none of these requests failed.  In a dry run no request
is attempted and the error is nil. -/
theorem sync_error_exact (s : Syncer) (g : GitHub) (org team : String)
    (T : List (String × String)) (l : Listing) (h : s.list g org team = .ok l) :
    (s.dryRun = true → (s.Sync g org team T).err = [])
      ∧ (s.dryRun = false →
          (s.Sync g org team T).github.calls
              = l.github.calls ++ (s.Sync g org team T).stdout.map Notice.toCall
            ∧ (s.Sync g org team T).err
              = ((((s.Sync g org team T).stdout.enumFrom l.github.calls.length).filter
                  (fun p => g.faults p.1)).map (fun p => p.2.failure))
            ∧ ((s.Sync g org team T).err = [] ↔
                ∀ i, i < (s.Sync g org team T).stdout.length →
                  g.faults (l.github.calls.length + i) = false)) := by
  have herr := sync_err_of_list_ok s g org team T l h
  obtain ⟨hs, hc, -⟩ := sync_of_list_ok s g org team T l h
  constructor
  · intro hd
    rw [herr, hd]
    rfl
  · intro hd
    rw [hd] at herr
    simp only [Bool.false_eq_true, if_false] at herr
    refine ⟨?_, ?_, ?_⟩
    · rw [hc, hs, hd]
      rfl
    · rw [herr, failures_eq_enumFrom]
    · rw [herr, failures_eq_nil]

/-- Witness of C13: in the worked example the request that adds carol fails and
the two others succeed. -/
theorem sync_error_exact_witness :
    (NewSyncer false).list faultyDirectory "abcxyz" "go-readability" = .ok faultyListing
      ∧ ((NewSyncer false).Sync faultyDirectory "abcxyz" "go-readability" smallTarget).err
          = ["failed to add carol to abcxyz/go-readability: request failed"]
      ∧ (((NewSyncer false).Sync faultyDirectory "abcxyz" "go-readability" smallTarget).err = []
          ↔ ∀ i, i < ((NewSyncer false).Sync faultyDirectory "abcxyz" "go-readability"
                smallTarget).stdout.length →
              faultyDirectory.faults (faultyListing.github.calls.length + i) = false) :=
  ⟨rfl, by decide,
    ((sync_error_exact (NewSyncer false) faultyDirectory "abcxyz" "go-readability" smallTarget
      faultyListing rfl).2 rfl).2.2⟩

/-! ## The merge of the listings -/

theorem mapSet_keys {α : Type} (m : List (String × α)) (k : String) (v : α) :
    (mapSet m k v).map Prod.fst
      = if k ∈ m.map Prod.fst then m.map Prod.fst else m.map Prod.fst ++ [k] := by
  induction m with
  | nil => simp [mapSet]
  | cons e m ih =>
    obtain ⟨k1, v1⟩ := e
    by_cases h1 : k1 = k
    · subst h1
      simp [mapSet]
    · have h3 : ¬ k = k1 := fun h => h1 h.symm
      simp only [mapSet, h1, if_false, List.map_cons, ih, List.mem_cons, h3, false_or]
      split <;> simp

theorem mapSet_keys_nodup {α : Type} (m : List (String × α)) (k : String) (v : α)
    (h : (m.map Prod.fst).Nodup) : ((mapSet m k v).map Prod.fst).Nodup := by
  rw [mapSet_keys]
  split
  · exact h
  · rename_i hk
    rw [List.nodup_append]
    refine ⟨h, List.nodup_singleton k, ?_⟩
    intro a ha hb
    simp only [List.mem_singleton] at hb
    subst hb
    exact hk ha

theorem foldl_mapSet_nodup (role : String) (l : List String) (m : List (String × String))
    (h : (m.map Prod.fst).Nodup) :
    ((l.foldl (fun m login => mapSet m login role) m).map Prod.fst).Nodup := by
  induction l generalizing m with
  | nil => exact h
  | cons x l ih => exact ih _ (mapSet_keys_nodup m x role h)

theorem existingMemberships_nodup (ms mts : List String) :
    ((existingMemberships ms mts).map Prod.fst).Nodup := by
  unfold existingMemberships
  exact foldl_mapSet_nodup _ _ _ (foldl_mapSet_nodup _ _ _ (by simp))

theorem mapGet_foldl_mapSet (role : String) (l : List String) (m : List (String × String))
    (u : String) :
    mapGet (l.foldl (fun m login => mapSet m login role) m) u
      = if u ∈ l then some role else mapGet m u := by
  induction l generalizing m with
  | nil => simp
  | cons x l ih =>
    simp only [List.foldl_cons, ih, mapGet_mapSet, List.mem_cons]
    by_cases h1 : u ∈ l
    · simp [h1]
    · by_cases h2 : x = u
      · simp [h2]
      · have h3 : ¬ u = x := fun h => h2 h.symm
        simp [h1, h2, h3]

theorem mem_keys_iff {α : Type} (m : List (String × α)) (u : String) :
    u ∈ m.map Prod.fst ↔ mapGet m u ≠ none := by
  rw [Ne, mapGet_eq_none_iff]
  simp

/-- C18 (maintainer precedence in the merge).  For every pair of listings, the
merged `existingMemberships` maps a login of the maintainer listing to
"maintainer", also when the member listing has it too, maps every other login
of the member listing to "member", and has no other key: its keys, each
occurring once, are the logins of the two listings. -/
theorem existingMemberships_merge (existingMembers existingMaintainers : List String)
    (u : String) :
    mapGet (existingMemberships existingMembers existingMaintainers) u
        = (if u ∈ existingMaintainers then some "maintainer"
            else if u ∈ existingMembers then some "member" else none)
      ∧ (u ∈ (existingMemberships existingMembers existingMaintainers).map Prod.fst
          ↔ u ∈ existingMembers ∨ u ∈ existingMaintainers)
      ∧ ((existingMemberships existingMembers existingMaintainers).map Prod.fst).Nodup := by
  have hget : mapGet (existingMemberships existingMembers existingMaintainers) u
        = (if u ∈ existingMaintainers then some "maintainer"
            else if u ∈ existingMembers then some "member" else none) := by
    unfold existingMemberships
    rw [mapGet_foldl_mapSet, mapGet_foldl_mapSet]
    rfl
  refine ⟨hget, ?_, existingMemberships_nodup _ _⟩
  rw [mem_keys_iff, hget]
  by_cases h1 : u ∈ existingMaintainers
  · simp [h1]
  · by_cases h2 : u ∈ existingMembers <;> simp [h1, h2]

/-! ## One operation per identity -/

theorem targetNotices_user_sublist (org team : String) (A : List String)
    (E T : List (String × String)) :
    ((T.flatMap (targetNotices org team A E)).map Notice.user).Sublist (T.map Prod.fst) := by
  induction T with
  | nil => simp
  | cons e T ih =>
    simp only [List.flatMap_cons, List.map_append, List.map_cons]
    unfold targetNotices
    split
    · exact List.Sublist.cons₂ _ ih
    · split
      · exact List.Sublist.cons₂ _ ih
      · exact List.Sublist.cons _ ih

theorem removalNotices_user_sublist (org team : String) (E T : List (String × String)) :
    ((E.flatMap (removalNotices org team T)).map Notice.user).Sublist (E.map Prod.fst) := by
  induction E with
  | nil => simp
  | cons e E ih =>
    simp only [List.flatMap_cons, List.map_append, List.map_cons]
    unfold removalNotices
    split
    · exact List.Sublist.cons _ ih
    · exact List.Sublist.cons₂ _ ih

theorem mem_removalNotices_user (org team : String) (E T : List (String × String))
    (u : String) (h : u ∈ (E.flatMap (removalNotices org team T)).map Notice.user) :
    mapGet T u = none := by
  obtain ⟨n, hn, rfl⟩ := List.mem_map.1 h
  obtain ⟨e, -, he⟩ := List.mem_flatMap.1 hn
  unfold removalNotices at he
  split at he
  · simp at he
  · rename_i hc
    simp only [List.mem_singleton] at he
    subst he
    cases hg : mapGet T e.1 with
    | none => exact hg
    | some v => simp [hg] at hc

theorem diffNotices_user_nodup (org team : String) (A : List String)
    (E T : List (String × String)) (hT : (T.map Prod.fst).Nodup)
    (hE : (E.map Prod.fst).Nodup) :
    ((diffNotices org team A E T).map Notice.user).Nodup := by
  unfold diffNotices
  rw [List.map_append, List.nodup_append]
  refine ⟨(targetNotices_user_sublist org team A E T).nodup hT,
    (removalNotices_user_sublist org team E T).nodup hE, ?_⟩
  intro u h1 h2
  have hk : u ∈ T.map Prod.fst := (targetNotices_user_sublist org team A E T).subset h1
  have hn := mem_removalNotices_user org team E T u h2
  exact (mem_keys_iff T u).1 hk hn

theorem toCall_user (n : Notice) : n.toCall.user = n.user := by
  cases n <;> rfl

theorem diffNotices_toCall_nodup (org team : String) (A : List String)
    (E T : List (String × String)) (hT : (T.map Prod.fst).Nodup)
    (hE : (E.map Prod.fst).Nodup) :
    ((diffNotices org team A E T).map Notice.toCall).Nodup := by
  apply List.Nodup.of_map Call.user
  rw [List.map_map]
  have h := diffNotices_user_nodup org team A E T hT hE
  have hf : Call.user ∘ Notice.toCall = Notice.user := by
    funext n
    exact toCall_user n
  rw [hf]
  exact h

theorem mem_diffNotices_user (org team : String) (A ms mts : List String)
    (T : List (String × String)) (hT : (T.map Prod.fst).Nodup) (u : String) :
    u ∈ (diffNotices org team A (existingMemberships ms mts) T).map Notice.user
      ↔ mapGet (existingMemberships ms mts) u ≠ (mapGet T u).map (effectiveRole A u) := by
  have hE := existingMemberships_nodup ms mts
  constructor
  · intro h
    obtain ⟨n, hn, hu⟩ := List.mem_map.1 h
    cases n with
    | adding u2 o t r =>
      simp only [Notice.user] at hu
      subst hu
      obtain ⟨-, -, tr, h1, h2, -⟩ := (mem_diffNotices_adding _ _ _ _ _ _ _ _ _).1 hn
      rw [(mapGet_of_mem T hT _ _).2 h1, h2]
      simp
    | updating u2 o t e r =>
      simp only [Notice.user] at hu
      subst hu
      obtain ⟨-, -, tr, h1, h2, -, h4, h5⟩ := (mem_diffNotices_updating _ _ _ _ _ _ _ _ _ _).1 hn
      rw [(mapGet_of_mem T hT _ _).2 h1, h2]
      simp only [Option.map_some', ne_eq, Option.some.injEq]
      rw [← h5]
      exact h4
    | removing u2 o t =>
      simp only [Notice.user] at hu
      subst hu
      obtain ⟨-, -, ⟨e, he⟩, h2⟩ := (mem_diffNotices_removing _ _ A _ _ _ _ _).1 hn
      rw [h2, (mapGet_of_mem _ hE _ _).2 he]
      simp
  · intro h
    cases hT2 : mapGet T u with
    | some tr =>
      rw [hT2] at h
      simp only [Option.map_some'] at h
      have hmem := (mapGet_of_mem T hT _ _).1 hT2
      cases hE2 : mapGet (existingMemberships ms mts) u with
      | none =>
        exact List.mem_map.2 ⟨Notice.adding u org team (effectiveRole A u tr),
          (mem_diffNotices_adding _ _ _ _ _ _ _ _ _).2 ⟨rfl, rfl, tr, hmem, hE2, rfl⟩, rfl⟩
      | some e =>
        have hne : e ≠ effectiveRole A u tr := by
          intro he; apply h; rw [hE2, he]
        have he0 : e ≠ "" := by
          rcases existingMemberships_role _ _ _ _ hE2 with he | he <;> (rw [he]; decide)
        exact List.mem_map.2 ⟨Notice.updating u org team e (effectiveRole A u tr),
          (mem_diffNotices_updating _ _ _ _ _ _ _ _ _ _).2
            ⟨rfl, rfl, tr, hmem, hE2, he0, hne, rfl⟩, rfl⟩
    | none =>
      rw [hT2] at h
      simp only [Option.map_none'] at h
      cases hE2 : mapGet (existingMemberships ms mts) u with
      | none => exact absurd hE2 h
      | some e =>
        have hmem := (mapGet_of_mem _ hE _ _).1 hE2
        exact List.mem_map.2 ⟨Notice.removing u org team,
          (mem_diffNotices_removing _ _ A _ _ _ _ _).2 ⟨rfl, rfl, ⟨e, hmem⟩, hT2⟩, rfl⟩

theorem mutations_of_list_ok (s : Syncer) (g : GitHub) (org team : String)
    (T : List (String × String)) (l : Listing) (h : s.list g org team = .ok l) :
    (newCalls g (s.Sync g org team T).github).filter Call.isMutation
      = if s.dryRun then [] else (s.Sync g org team T).stdout.map Notice.toCall := by
  have hr1 : ∀ (c : Prop) [Decidable c], List.filter Call.isMutation
      (if c then [] else [Call.listMembers org "admin" 100]) = [] := by
    intro c _
    split <;> rfl
  have hr2 : List.filter Call.isMutation [Call.listTeamMembersBySlug org team "member" 100,
      Call.listTeamMembersBySlug org team "maintainer" 100] = [] := rfl
  rw [newCalls_sync s g org team T l h]
  cases hd : s.dryRun
  · simp only [Bool.false_eq_true, if_false, List.filter_append, filter_isMutation_map_toCall,
      hr1, hr2, List.nil_append]
  · simp only [if_true, List.append_nil, List.filter_append, hr1, hr2]

/-- The operations, relative to what `Sync` has listed.  Let `E` be the existing
memberships that `Sync` merged from its listings (one page each) and `A` the org
admins it resolved.  No two of the lines `Sync` prints are about the same user,
so a user gets at most one of add, update and remove; the number of lines equals
the number of users, among the keys of the target and of `E`, whose entry in `E`
differs from their target entry with the adjusted role of the specification
(absent when the user is not in the target); and when it is not a dry run the
add and remove requests sent are exactly one per line. -/
theorem sync_minimal_operations (s : Syncer) (g : GitHub) (org team : String)
    (T : List (String × String)) (l : Listing)
    (hT : (T.map Prod.fst).Nodup) (h : s.list g org team = .ok l) :
    ((s.Sync g org team T).stdout.map Notice.user).Nodup
      ∧ (s.Sync g org team T).stdout.length
          = ((T.map Prod.fst
                ++ (existingMemberships l.existingMembers l.existingMaintainers).map
                    Prod.fst).toFinset.filter
              (fun u => mapGet (existingMemberships l.existingMembers l.existingMaintainers) u
                ≠ (mapGet T u).map (adjustedRole l.orgAdmins u))).card
      ∧ (s.dryRun = false →
          (newCalls g (s.Sync g org team T).github).filter Call.isMutation
            = (s.Sync g org team T).stdout.map Notice.toCall) := by
  have hadj : adjustedRole l.orgAdmins = effectiveRole l.orgAdmins := by
    funext u r
    exact (effectiveRole_eq_adjustedRole l.orgAdmins u r).symm
  simp only [hadj]
  have hs := (sync_of_list_ok s g org team T l h).1
  have hnd := diffNotices_user_nodup org team l.orgAdmins
    (existingMemberships l.existingMembers l.existingMaintainers) T hT
    (existingMemberships_nodup _ _)
  refine ⟨by rw [hs]; exact hnd, ?_, ?_⟩
  · rw [hs, ← List.length_map _ Notice.user, ← List.toFinset_card_of_nodup hnd]
    congr 1
    ext u
    simp only [List.mem_toFinset, Finset.mem_filter, List.mem_append]
    rw [mem_diffNotices_user org team _ _ _ T hT u]
    constructor
    · intro hne
      refine ⟨?_, hne⟩
      cases hT2 : mapGet T u with
      | some tr =>
        left
        rw [mem_keys_iff, hT2]
        simp
      | none =>
        right
        rw [mem_keys_iff]
        rw [hT2] at hne
        simpa using hne
    · exact fun hx => hx.2
  · intro hd
    rw [mutations_of_list_ok s g org team T l h, hd]
    rfl

/-- An instance with an org admin: dave, an org admin held as member, differs
from his adjusted target entry, carol is absent and bob is not in the target;
three lines are printed. -/
theorem sync_minimal_operations_witness :
    (adminTarget.map Prod.fst).Nodup
      ∧ (NewSyncer false).list adminDirectory "abcxyz" "go-readability" = .ok adminListing
      ∧ (((NewSyncer false).Sync adminDirectory "abcxyz" "go-readability" adminTarget).stdout.map
          Notice.user).Nodup
      ∧ ((NewSyncer false).Sync adminDirectory "abcxyz" "go-readability" adminTarget).stdout
          = [Notice.updating "dave" "abcxyz" "go-readability" "member" "maintainer",
             Notice.adding "carol" "abcxyz" "go-readability" "member",
             Notice.removing "bob" "abcxyz" "go-readability"] :=
  ⟨by decide, rfl,
    (sync_minimal_operations (NewSyncer false) adminDirectory "abcxyz" "go-readability"
      adminTarget adminListing (by decide) rfl).1,
    by decide⟩

/-- C16 (worked example).  With alice a member and bob a maintainer of the
team, the target alice: maintainer, carol: member and no org admins, `Sync`
prints exactly three lines, the update of alice to maintainer, the addition of
carol as member and the removal of bob, and the add and remove requests it
sends are exactly the three that go with them; it returns no error and the
team is then alice: maintainer, carol: member. -/
theorem sync_worked_example :
    ((NewSyncer false).Sync smallDirectory "abcxyz" "go-readability" smallTarget).stdout
        = [Notice.updating "alice" "abcxyz" "go-readability" "member" "maintainer",
           Notice.adding "carol" "abcxyz" "go-readability" "member",
           Notice.removing "bob" "abcxyz" "go-readability"]
      ∧ (newCalls smallDirectory ((NewSyncer false).Sync smallDirectory "abcxyz"
            "go-readability" smallTarget).github).filter Call.isMutation
          = [Call.addTeamMembershipBySlug "abcxyz" "go-readability" "alice" "maintainer",
             Call.addTeamMembershipBySlug "abcxyz" "go-readability" "carol" "member",
             Call.removeTeamMembershipBySlug "abcxyz" "go-readability" "bob"]
      ∧ ((NewSyncer false).Sync smallDirectory "abcxyz" "go-readability" smallTarget).err = []
      ∧ ((NewSyncer false).Sync smallDirectory "abcxyz" "go-readability"
            smallTarget).github.teams "abcxyz" "go-readability"
          = [("alice", "maintainer"), ("carol", "member")] := by
  decide

/-! ## Failures of single requests -/

theorem listMembers_reliable (g : GitHub) (org role : String) (n : Nat) (A : List String)
    (h : (g.ListMembers org role n).1 = .ok A) :
    g.reliable.ListMembers org role n = (.ok A, (g.ListMembers org role n).2.reliable) := by
  unfold GitHub.ListMembers at h ⊢
  cases hf : g.faults g.calls.length
  · simp only [hf, Bool.false_eq_true, if_false, Except.ok.injEq] at h
    simp [GitHub.reliable, hf, h]
  · simp [hf] at h

theorem listTeam_reliable (g : GitHub) (org team role : String) (n : Nat) (ms : List String)
    (h : (g.ListTeamMembersBySlug org team role n).1 = .ok ms) :
    g.reliable.ListTeamMembersBySlug org team role n
      = (.ok ms, (g.ListTeamMembersBySlug org team role n).2.reliable) := by
  unfold GitHub.ListTeamMembersBySlug at h ⊢
  cases hf : g.faults g.calls.length
  · simp only [hf, Bool.false_eq_true, if_false, Except.ok.injEq] at h
    simp [GitHub.reliable, hf, h]
  · simp [hf] at h

theorem orgAdmins_reliable (s : Syncer) (g : GitHub) (org : String) (A : List String)
    (h : (s.OrgAdmins g org).1 = .ok A) :
    s.OrgAdmins g.reliable org
      = (.ok A, (s.OrgAdmins g org).2.1, (s.OrgAdmins g org).2.2.reliable) := by
  unfold Syncer.OrgAdmins at h ⊢
  cases hc : s.cached org with
  | some v =>
    simp only [hc, Except.ok.injEq] at h ⊢
    rw [h]
  | none =>
    simp only [hc] at h ⊢
    rcases hm : g.ListMembers org "admin" 100 with ⟨r, g1⟩
    rw [hm] at h
    cases r with
    | error e => simp at h
    | ok B =>
      simp only [Except.ok.injEq] at h
      have hr := listMembers_reliable g org "admin" 100 B (by rw [hm])
      rw [hr, hm]
      simp only [h]

theorem list_reliable (s : Syncer) (g : GitHub) (org team : String) (l : Listing)
    (h : s.list g org team = .ok l) :
    s.list g.reliable org team = .ok { l with github := l.github.reliable } := by
  unfold Syncer.list at h ⊢
  rcases ho : s.OrgAdmins g org with ⟨r, s1, g1⟩
  rw [ho] at h
  cases r with
  | error e => simp at h
  | ok A =>
    rw [orgAdmins_reliable s g org A (by rw [ho]), ho]
    simp only at h ⊢
    rcases hm : g1.ListTeamMembersBySlug org team "member" 100 with ⟨r2, g2⟩
    rw [hm] at h
    cases r2 with
    | error e => simp at h
    | ok ms =>
      rw [listTeam_reliable g1 org team "member" 100 ms (by rw [hm]), hm]
      simp only at h ⊢
      rcases hmt : g2.ListTeamMembersBySlug org team "maintainer" 100 with ⟨r3, g3⟩
      rw [hmt] at h
      cases r3 with
      | error e => simp at h
      | ok mts =>
        rw [listTeam_reliable g2 org team "maintainer" 100 mts (by rw [hmt]), hmt]
        simp only [Except.ok.injEq] at h ⊢
        subst h
        rfl

/-- C12 (per-operation failures do not block siblings).  Without dry run and
with the three reads succeeding, whatever requests fail: the add and remove
requests `Sync` sends are the requests of the computed diff, one per line of
the diff and no request twice, and they are the very requests it sends on the
client in which no request fails. -/
theorem sync_attempts_all (s : Syncer) (g : GitHub) (org team : String)
    (T : List (String × String)) (l : Listing) (hd : s.dryRun = false)
    (hT : (T.map Prod.fst).Nodup) (h : s.list g org team = .ok l) :
    (newCalls g (s.Sync g org team T).github).filter Call.isMutation
        = (diffNotices org team l.orgAdmins
            (existingMemberships l.existingMembers l.existingMaintainers) T).map Notice.toCall
      ∧ ((newCalls g (s.Sync g org team T).github).filter Call.isMutation).Nodup
      ∧ (newCalls g (s.Sync g org team T).github).filter Call.isMutation
        = (newCalls g.reliable (s.Sync g.reliable org team T).github).filter Call.isMutation := by
  have h0 := list_reliable s g org team l h
  have hm := mutations_of_list_ok s g org team T l h
  have hm0 := mutations_of_list_ok s g.reliable org team T _ h0
  rw [hd] at hm hm0
  simp only [Bool.false_eq_true, if_false] at hm hm0
  rw [(sync_of_list_ok s g org team T l h).1] at hm
  rw [(sync_of_list_ok s g.reliable org team T _ h0).1] at hm0
  refine ⟨hm, ?_, ?_⟩
  · rw [hm]
    exact diffNotices_toCall_nodup org team _ _ T hT (existingMemberships_nodup _ _)
  · rw [hm, hm0]

/-- Witness of C12: in the worked example the request that adds carol fails,
and the removal of bob is still sent. -/
theorem sync_attempts_all_witness :
    (NewSyncer false).dryRun = false ∧ (smallTarget.map Prod.fst).Nodup
      ∧ (NewSyncer false).list faultyDirectory "abcxyz" "go-readability" = .ok faultyListing
      ∧ (newCalls faultyDirectory ((NewSyncer false).Sync faultyDirectory "abcxyz"
            "go-readability" smallTarget).github).filter Call.isMutation
          = (newCalls faultyDirectory.reliable ((NewSyncer false).Sync faultyDirectory.reliable
              "abcxyz" "go-readability" smallTarget).github).filter Call.isMutation
      ∧ (newCalls faultyDirectory ((NewSyncer false).Sync faultyDirectory "abcxyz"
            "go-readability" smallTarget).github).filter Call.isMutation
          = [Call.addTeamMembershipBySlug "abcxyz" "go-readability" "alice" "maintainer",
             Call.addTeamMembershipBySlug "abcxyz" "go-readability" "carol" "member",
             Call.removeTeamMembershipBySlug "abcxyz" "go-readability" "bob"] :=
  ⟨rfl, by decide, rfl,
    (sync_attempts_all (NewSyncer false) faultyDirectory "abcxyz" "go-readability" smallTarget
      faultyListing rfl (by decide) rfl).2.2,
    by decide⟩

/-! ## The run driver -/

theorem syncTeam_syncs (language team : String) (T : List (String × String)) (st : Main.Run) :
    (Main.syncTeam language team T st).syncs.map Main.SyncCall.args
      = st.syncs.map Main.SyncCall.args ++ [(language, team, T)] := by
  simp [Main.syncTeam, Main.SyncCall.args]

theorem syncTeam_merr (language team : String) (T : List (String × String)) (st : Main.Run)
    (h : st.merr = (st.syncs.filter (fun c => c.err ≠ [])).map
      (fun c => Main.syncFailure c.language c.err)) :
    (Main.syncTeam language team T st).merr
      = ((Main.syncTeam language team T st).syncs.filter (fun c => c.err ≠ [])).map
          (fun c => Main.syncFailure c.language c.err) := by
  simp only [Main.syncTeam, List.filter_append, List.map_append, ← h]
  by_cases he : (st.syncer.Sync st.github Main.org team T).err = []
  · simp [he]
  · simp [he, errorsJoin]

theorem syncLanguage_syncs (configs : List (String × List (String × String)))
    (st : Main.Run) (language : String) :
    (Main.syncLanguage configs st language).syncs.map Main.SyncCall.args
      = st.syncs.map Main.SyncCall.args ++ Main.groups configs language := by
  simp [Main.syncLanguage, syncTeam_syncs, Main.groups]

theorem syncLanguage_merr (configs : List (String × List (String × String)))
    (st : Main.Run) (language : String)
    (h : st.merr = (st.syncs.filter (fun c => c.err ≠ [])).map
      (fun c => Main.syncFailure c.language c.err)) :
    (Main.syncLanguage configs st language).merr
      = ((Main.syncLanguage configs st language).syncs.filter (fun c => c.err ≠ [])).map
          (fun c => Main.syncFailure c.language c.err) := by
  unfold Main.syncLanguage
  exact syncTeam_merr _ _ _ _ (syncTeam_merr _ _ _ _ h)

theorem foldl_syncLanguage (configs : List (String × List (String × String)))
    (languages : List String) (st : Main.Run)
    (h : st.merr = (st.syncs.filter (fun c => c.err ≠ [])).map
      (fun c => Main.syncFailure c.language c.err)) :
    (languages.foldl (Main.syncLanguage configs) st).syncs.map Main.SyncCall.args
        = st.syncs.map Main.SyncCall.args ++ languages.flatMap (Main.groups configs)
      ∧ (languages.foldl (Main.syncLanguage configs) st).merr
        = ((languages.foldl (Main.syncLanguage configs) st).syncs.filter
            (fun c => c.err ≠ [])).map (fun c => Main.syncFailure c.language c.err) := by
  induction languages generalizing st with
  | nil => simpa using h
  | cons x xs ih =>
    obtain ⟨h1, h2⟩ := ih (Main.syncLanguage configs st x) (syncLanguage_merr configs st x h)
    simp only [List.foldl_cons, List.flatMap_cons]
    exact ⟨by rw [h1, syncLanguage_syncs, List.append_assoc], h2⟩

/-- The `Sync` calls of a run, in order, and its error. -/
theorem realMain_syncs (dryRun : Bool) (g : GitHub)
    (configs : List (String × List (String × String))) :
    (Main.realMain dryRun g configs).syncs.map Main.SyncCall.args
        = (Main.sortedKeys configs).flatMap (Main.groups configs)
      ∧ (Main.realMain dryRun g configs).merr
        = ((Main.realMain dryRun g configs).syncs.filter (fun c => c.err ≠ [])).map
            (fun c => Main.syncFailure c.language c.err) := by
  have h := foldl_syncLanguage configs (Main.sortedKeys configs)
    { merr := [], syncer := NewSyncer dryRun, github := g, syncs := [] } rfl
  simpa [Main.realMain] using h

theorem mem_sortedKeys (configs : List (String × List (String × String))) (language : String) :
    language ∈ Main.sortedKeys configs ↔ language ∈ configs.map Prod.fst := by
  unfold Main.sortedKeys
  exact (List.perm_insertionSort _ _).mem_iff

theorem length_sortedKeys (configs : List (String × List (String × String))) :
    (Main.sortedKeys configs).length = configs.length := by
  unfold Main.sortedKeys
  rw [(List.perm_insertionSort _ _).length_eq, List.length_map]

theorem length_flatMap_groups (configs : List (String × List (String × String)))
    (languages : List String) :
    (languages.flatMap (Main.groups configs)).length = 2 * languages.length := by
  induction languages with
  | nil => rfl
  | cons x xs ih =>
    simp only [List.flatMap_cons, List.length_append, ih, List.length_cons, Main.groups,
      List.length_nil]
    omega

/-- C15 (run-level aggregation).  Whatever requests fail, the run calls `Sync`
for the two teams of every configured language: for sorted languages in turn,
the readability team with the configured mapping and then the approvers team,
two calls per language, none skipped after an error.  The error the run returns
joins one "failed to sync" error for each `Sync` call that returned an error,
and is non-nil exactly when some `Sync` call returned an error. -/
theorem realMain_aggregates (dryRun : Bool) (g : GitHub)
    (configs : List (String × List (String × String)))
    (hc : (configs.map Prod.fst).Nodup) :
    (Main.realMain dryRun g configs).syncs.map Main.SyncCall.args
        = (Main.sortedKeys configs).flatMap (Main.groups configs)
      ∧ (∀ language T, (language, T) ∈ configs →
          (language, language ++ "-readability", T)
              ∈ (Main.realMain dryRun g configs).syncs.map Main.SyncCall.args
            ∧ (language, language ++ "-readability-approvers", Main.targetApproverMemberships T)
              ∈ (Main.realMain dryRun g configs).syncs.map Main.SyncCall.args)
      ∧ (Main.realMain dryRun g configs).syncs.length = 2 * configs.length
      ∧ (Main.realMain dryRun g configs).merr
          = ((Main.realMain dryRun g configs).syncs.filter (fun c => c.err ≠ [])).map
              (fun c => Main.syncFailure c.language c.err)
      ∧ ((Main.realMain dryRun g configs).merr ≠ []
          ↔ ∃ c ∈ (Main.realMain dryRun g configs).syncs, c.err ≠ []) := by
  obtain ⟨h1, h2⟩ := realMain_syncs dryRun g configs
  refine ⟨h1, ?_, ?_, h2, ?_⟩
  · intro language T hmem
    have hk : language ∈ Main.sortedKeys configs :=
      (mem_sortedKeys configs language).2 (List.mem_map.2 ⟨_, hmem, rfl⟩)
    have hget : mapGet configs language = some T := (mapGet_of_mem configs hc _ _).2 hmem
    rw [h1]
    constructor
    · exact List.mem_flatMap.2 ⟨language, hk, by simp [Main.groups, hget]⟩
    · exact List.mem_flatMap.2 ⟨language, hk, by simp [Main.groups, hget]⟩
  · have hl := congrArg List.length h1
    rw [List.length_map, length_flatMap_groups, length_sortedKeys] at hl
    exact hl
  · rw [h2]
    simp only [ne_eq, List.map_eq_nil_iff, List.filter_eq_nil_iff, decide_eq_true_eq,
      not_forall, Classical.not_imp, not_not, exists_prop]

/-- Witness of C15: the fetch of the org admins fails in the first `Sync`; the
second `Sync` of the language is made all the same, and the run returns the
error of the first. -/
theorem realMain_aggregates_witness :
    (daveConfigs.map Prod.fst).Nodup
      ∧ (Main.realMain false flakyDirectory daveConfigs).syncs.length = 2 * daveConfigs.length
      ∧ (Main.realMain false flakyDirectory daveConfigs).syncs.map (fun c => (c.team, c.err))
          = [("go-readability", ["failed to get org admins for abcxyz: request failed"]),
             ("go-readability-approvers", [])]
      ∧ (Main.realMain false flakyDirectory daveConfigs).merr
          = ["failed to sync go: failed to get org admins for abcxyz: request failed"] :=
  ⟨by decide,
    (realMain_aggregates false flakyDirectory daveConfigs (by decide)).2.2.1,
    by decide, by decide⟩

theorem mem_newCalls_add (s : Syncer) (g : GitHub) (org team : String)
    (T : List (String × String)) (l : Listing) (h : s.list g org team = .ok l)
    (o t u r : String)
    (hc : Call.addTeamMembershipBySlug o t u r ∈ newCalls g (s.Sync g org team T).github) :
    Notice.adding u o t r ∈ (s.Sync g org team T).stdout
      ∨ ∃ e, Notice.updating u o t e r ∈ (s.Sync g org team T).stdout := by
  rw [newCalls_sync s g org team T l h] at hc
  simp only [List.mem_append] at hc
  rcases hc with (hm | hm) | hm
  · split at hm <;> simp at hm
  · simp at hm
  · split at hm
    · simp at hm
    · obtain ⟨n, hn, hc⟩ := List.mem_map.1 hm
      cases n with
      | adding u2 o2 t2 r2 =>
        simp only [Notice.toCall, Call.addTeamMembershipBySlug.injEq] at hc
        obtain ⟨rfl, rfl, rfl, rfl⟩ := hc
        exact Or.inl hn
      | updating u2 o2 t2 e2 r2 =>
        simp only [Notice.toCall, Call.addTeamMembershipBySlug.injEq] at hc
        obtain ⟨rfl, rfl, rfl, rfl⟩ := hc
        exact Or.inr ⟨e2, hn⟩
      | removing u2 o2 t2 => simp [Notice.toCall] at hc

theorem effectiveRole_cases (A : List String) (u tr : String) :
    effectiveRole A u tr = tr ∨ (u ∈ A ∧ effectiveRole A u tr = "maintainer") := by
  unfold effectiveRole
  split
  · rename_i hc
    exact Or.inr ⟨hc.1, rfl⟩
  · exact Or.inl rfl

/-- The role of every upsert line is the configured role or, for an org admin,
"maintainer". -/
theorem upsert_role (s : Syncer) (g : GitHub) (org team : String)
    (T : List (String × String)) (l : Listing)
    (hT : (T.map Prod.fst).Nodup) (h : s.list g org team = .ok l) (u o t r : String)
    (hn : Notice.adding u o t r ∈ (s.Sync g org team T).stdout
      ∨ ∃ e, Notice.updating u o t e r ∈ (s.Sync g org team T).stdout) :
    mapGet T u = some r ∨ (u ∈ l.orgAdmins ∧ r = "maintainer") := by
  have hs := (sync_of_list_ok s g org team T l h).1
  have key : ∃ tr, (u, tr) ∈ T ∧ r = effectiveRole l.orgAdmins u tr := by
    rcases hn with hn | ⟨e, hn⟩
    · rw [hs, mem_diffNotices_adding] at hn
      obtain ⟨-, -, tr, h1, -, h3⟩ := hn
      exact ⟨tr, h1, h3⟩
    · rw [hs, mem_diffNotices_updating] at hn
      obtain ⟨-, -, tr, h1, -, -, -, h3⟩ := hn
      exact ⟨tr, h1, h3⟩
  obtain ⟨tr, h1, h3⟩ := key
  rcases effectiveRole_cases l.orgAdmins u tr with hc | ⟨hA, hc⟩
  · left
    rw [h3, hc]
    exact (mapGet_of_mem T hT _ _).2 h1
  · right
    exact ⟨hA, by rw [h3, hc]⟩

/-- C14 (role validation), amended.  Roles are not validated.  The run hands
each configured mapping to `Sync` as parsed, whatever role strings it holds.
Every "adding" or "updating" line that `Sync` prints for a user, and every add
request it sends, carries the role string configured for that user or, when
the user is an org admin, "maintainer".  Hence no add or update has a role
other than "member" or "maintainer" when every configured role of the mapping is
one of the two. -/
theorem sync_roles_as_configured (dryRun : Bool) (g0 : GitHub)
    (configs : List (String × List (String × String)))
    (s : Syncer) (g : GitHub) (org team : String)
    (T : List (String × String)) (l : Listing)
    (hT : (T.map Prod.fst).Nodup) (h : s.list g org team = .ok l) :
    (Main.realMain dryRun g0 configs).syncs.map Main.SyncCall.args
        = (Main.sortedKeys configs).flatMap (Main.groups configs)
      ∧ (∀ u o t r, (Notice.adding u o t r ∈ (s.Sync g org team T).stdout
            ∨ (∃ e, Notice.updating u o t e r ∈ (s.Sync g org team T).stdout)
            ∨ Call.addTeamMembershipBySlug o t u r ∈ newCalls g (s.Sync g org team T).github) →
          mapGet T u = some r ∨ (u ∈ l.orgAdmins ∧ r = "maintainer"))
      ∧ ((∀ u r, mapGet T u = some r → r = "member" ∨ r = "maintainer") →
          ∀ u o t r, (Notice.adding u o t r ∈ (s.Sync g org team T).stdout
            ∨ (∃ e, Notice.updating u o t e r ∈ (s.Sync g org team T).stdout)
            ∨ Call.addTeamMembershipBySlug o t u r ∈ newCalls g (s.Sync g org team T).github) →
          r = "member" ∨ r = "maintainer") := by
  have key : ∀ u o t r, (Notice.adding u o t r ∈ (s.Sync g org team T).stdout
            ∨ (∃ e, Notice.updating u o t e r ∈ (s.Sync g org team T).stdout)
            ∨ Call.addTeamMembershipBySlug o t u r ∈ newCalls g (s.Sync g org team T).github) →
          mapGet T u = some r ∨ (u ∈ l.orgAdmins ∧ r = "maintainer") := by
    intro u o t r hn
    apply upsert_role s g org team T l hT h u o t r
    rcases hn with hn | hn | hn
    · exact Or.inl hn
    · exact Or.inr hn
    · exact mem_newCalls_add s g org team T l h o t u r hn
  refine ⟨(realMain_syncs dryRun g0 configs).1, key, ?_⟩
  intro hvalid u o t r hn
  rcases key u o t r hn with hk | ⟨-, hk⟩
  · exact hvalid u r hk
  · exact Or.inr hk

/-- Witness of C14 amended: the worked example, whose configured roles are
"member" and "maintainer". -/
theorem sync_roles_as_configured_witness :
    (smallTarget.map Prod.fst).Nodup
      ∧ (NewSyncer false).list smallDirectory "abcxyz" "go-readability" = .ok (smallListing false)
      ∧ (∀ u o t r,
          (Notice.adding u o t r
              ∈ ((NewSyncer false).Sync smallDirectory "abcxyz" "go-readability"
                  smallTarget).stdout
            ∨ (∃ e, Notice.updating u o t e r
              ∈ ((NewSyncer false).Sync smallDirectory "abcxyz" "go-readability"
                  smallTarget).stdout)
            ∨ Call.addTeamMembershipBySlug o t u r
              ∈ newCalls smallDirectory ((NewSyncer false).Sync smallDirectory "abcxyz"
                  "go-readability" smallTarget).github) →
          mapGet smallTarget u = some r ∨ (u ∈ (smallListing false).orgAdmins ∧ r = "maintainer")) :=
  ⟨by decide, rfl,
    (sync_roles_as_configured false smallDirectory [("go", smallTarget)] (NewSyncer false)
      smallDirectory "abcxyz" "go-readability" smallTarget (smallListing false) (by decide)
      rfl).2.1⟩

/-- C14 as stated fails: with eve configured as "owner", the run does not stop
before reconciling; it calls `Sync` for both teams and `Sync` sends the request
that adds eve to the readability team with the role "owner". -/
theorem realMain_owner_role_sent :
    ¬ ("owner" = "member" ∨ "owner" = "maintainer")
      ∧ (Main.realMain false emptyDirectory ownerConfigs).syncs.map Main.SyncCall.args
          = [("go", "go-readability", [("eve", "owner")]), ("go", "go-readability-approvers", [])]
      ∧ Call.addTeamMembershipBySlug "abcxyz" "go-readability" "eve" "owner"
          ∈ (Main.realMain false emptyDirectory ownerConfigs).github.calls := by
  decide

/-! ## The approvers team -/

/-- The method `OrgAdmins` is its read-locked lookup followed, on a miss, by its
write-locked fetch. -/
theorem orgAdmins_eq_lookup_fetch (s : Syncer) (g : GitHub) (org : String) :
    s.OrgAdmins g org
      = match s.lookupOrgAdmins org with
        | some v => (.ok v, s, g)
        | none => s.fetchOrgAdmins g org := rfl

theorem fetchOrgAdmins_fetches (s : Syncer) (g : GitHub) (org : String) :
    fetches (s.fetchOrgAdmins g org).2.2 org = fetches g org + 1 := by
  unfold Syncer.fetchOrgAdmins
  have h2 := listMembers_snd g org "admin" 100
  rcases h : g.ListMembers org "admin" 100 with ⟨r, g1⟩
  rw [h] at h2
  simp only at h2
  subst h2
  cases r <;> simp [fetches, List.count_append]

/-- Whatever the directory and the fault schedule, two racing calls that both
miss both send the list request. -/
theorem racingOrgAdmins_fetches (s : Syncer) (g : GitHub) (org : String)
    (hmiss : s.cached org = none) :
    fetches (s.racingOrgAdmins g org).2.2 org = fetches g org + 2 := by
  simp only [Syncer.racingOrgAdmins, Syncer.lookupOrgAdmins, hmiss]
  rw [fetchOrgAdmins_fetches, fetchOrgAdmins_fetches]

/-- C17 at a failing schedule.  On a new syncer two goroutines call `OrgAdmins`
for "abcxyz" at the same time and both finish the read-locked lookup, a miss,
before either takes the write lock.  Both then send the list request, one after
the other under the write lock: the organisation's admins are fetched twice,
where two calls made one after the other fetch them once.  Both calls return
the same set and the cache ends with that one set. -/
theorem orgAdmins_racing_misses_fetch_twice :
    (NewSyncer false).lookupOrgAdmins "abcxyz" = none
      ∧ fetches ((NewSyncer false).racingOrgAdmins daveDirectory "abcxyz").2.2 "abcxyz" = 2
      ∧ ((NewSyncer false).racingOrgAdmins daveDirectory "abcxyz").2.2.calls
          = [Call.listMembers "abcxyz" "admin" 100, Call.listMembers "abcxyz" "admin" 100]
      ∧ ((NewSyncer false).racingOrgAdmins daveDirectory "abcxyz").1.1.toOption = some ["dave"]
      ∧ ((NewSyncer false).racingOrgAdmins daveDirectory "abcxyz").1.2.toOption = some ["dave"]
      ∧ ((NewSyncer false).racingOrgAdmins daveDirectory "abcxyz").2.1.cached "abcxyz"
          = some ["dave"]
      ∧ fetches ((NewSyncer false).run daveDirectory "abcxyz"
          [Request.orgAdmins, Request.orgAdmins]).2 "abcxyz" = 1 := by
  decide

/-! ## Listings beyond the first page: the add/update loop -/

set_option maxRecDepth 100000 in
/-- C3 at a failing input.  The team has 101 members "u0" to "u100", there is no
org admin, and the target is that very roster.  "u100" is in the target with
role "member", its adjusted role is "member", and it holds the role "member" in
the team; yet `Sync`, which returns no error, prints the addition of "u100" and
sends the add request for it, because the first page of 100 members does not
show "u100". -/
theorem sync_big_team_present_user_added :
    mapGet bigTarget "u100" = some "member"
      ∧ mapGet (bigTeam.teams "abcxyz" "go-readability") "u100" = some "member"
      ∧ adjustedRole (bigTeam.admins "abcxyz") "u100" "member" = "member"
      ∧ bigTeamSameSync.err = []
      ∧ Notice.adding "u100" "abcxyz" "go-readability" "member" ∈ bigTeamSameSync.stdout
      ∧ Call.addTeamMembershipBySlug "abcxyz" "go-readability" "u100" "member"
          ∈ newCalls bigTeam bigTeamSameSync.github := by
  decide!

theorem bigTeam_no_difference :
    ((bigTarget.map Prod.fst
        ++ (bigTeam.teams "abcxyz" "go-readability").map Prod.fst).toFinset.filter
      (fun u => mapGet (bigTeam.teams "abcxyz" "go-readability") u
        ≠ (mapGet bigTarget u).map (adjustedRole (bigTeam.admins "abcxyz") u))).card = 0 := by
  rw [Finset.card_eq_zero, Finset.filter_eq_empty_iff]
  intro u _
  have hr : bigTeam.teams "abcxyz" "go-readability" = bigTarget := rfl
  have ha : bigTeam.admins "abcxyz" = [] := rfl
  rw [hr, ha]
  cases mapGet bigTarget u <;> simp [adjustedRole]

set_option maxRecDepth 100000 in
/-- C19 at a failing input.  The team has 101 members "u0" to "u100", there is
no org admin, and the target is that very roster, so no identity has an existing
state that differs from its adjusted target state: the number of such identities
is 0.  Yet `Sync`, which returns no error, issues one operation, the addition of
"u100". -/
theorem sync_big_team_needless_operation :
    bigTeam.teams "abcxyz" "go-readability" = bigTarget
      ∧ ((bigTarget.map Prod.fst
            ++ (bigTeam.teams "abcxyz" "go-readability").map Prod.fst).toFinset.filter
          (fun u => mapGet (bigTeam.teams "abcxyz" "go-readability") u
            ≠ (mapGet bigTarget u).map (adjustedRole (bigTeam.admins "abcxyz") u))).card = 0
      ∧ bigTeamSameSync.err = []
      ∧ bigTeamSameSync.stdout = [Notice.adding "u100" "abcxyz" "go-readability" "member"]
      ∧ (newCalls bigTeam bigTeamSameSync.github).filter Call.isMutation
          = [Call.addTeamMembershipBySlug "abcxyz" "go-readability" "u100" "member"] :=
  ⟨rfl, bigTeam_no_difference, by decide!⟩

end Readability
